import Mathlib

/-!
Verification of the puzzle-generation and action-application core of the
ggj-2022 tile-matching game (`src/main.rs`).

The engine operates on Rust `Vec`s; we embed columns as Lean `List`s.
Rust operations that can panic (`Vec::swap` out of bounds, `rotate_left`
with `mid > len`, `Option::unwrap`, `gen_range` on an empty range, and
debug-mode integer underflow) are embedded as `Option`/error results:
`none` (or `GenErr.panic`) marks a panic.
-/

namespace Game

/-- Source `struct TileNature(usize)`: the hidden symbol of a tile. -/
structure TileNature where
  val : Nat
deriving DecidableEq, Repr

/-- Source `enum TileSide`. -/
inductive TileSide
  | left
  | right
deriving DecidableEq, Repr

/-- Source `enum CycleDirection`. -/
inductive CycleDirection
  | up
  | down
deriving DecidableEq, Repr

/-- Source `enum Action`: the four card transformations.
`times` is an `i32` in the source, embedded as `Int`. -/
inductive Action
  | swapFirstAndLast (side : TileSide)
  | swapTwoAdjacent (top : Nat) (side : TileSide)
  | swapTwoNatures (nature_a nature_b : TileNature) (side : TileSide)
  | cycle (times : Int) (direction : CycleDirection) (side : TileSide)
deriving DecidableEq, Repr

/-- The `i32 as usize` cast on a 64-bit target: two's-complement
reinterpretation, i.e. reduction mod 2^64. -/
def usizeOfI32 (t : Int) : Nat :=
  (t % (2 ^ 64 : Int)).toNat

/-- Rust `Vec::swap(i, j)`: exchanges the entries at `i` and `j`; panics
(`none`) when either index is out of bounds. -/
def listSwap {T : Type} (l : List T) (i j : Nat) : Option (List T) :=
  if h : i < l.length ∧ j < l.length then
    some ((l.set i (l.get ⟨j, h.2⟩)).set j (l.get ⟨i, h.1⟩))
  else none

/-- Rust `Iterator::position`: index of the first element satisfying the
predicate, `none` when there is none. -/
def position {T : Type} (p : T → Bool) : List T → Option Nat
  | [] => none
  | x :: xs => if p x then some 0 else (position p xs).map (· + 1)

/-- Rust `Vec::rotate_left(mid)`: panics (`none`) when `mid > len`. -/
def rotLeft {T : Type} (l : List T) (mid : Nat) : Option (List T) :=
  if mid ≤ l.length then some (l.rotate mid) else none

/-- Rust `Vec::rotate_right(k)`: panics (`none`) when `k > len`.
`rotate_right k = rotate_left (len - k)` for `k ≤ len`. -/
def rotRight {T : Type} (l : List T) (k : Nat) : Option (List T) :=
  if k ≤ l.length then some (l.rotate (l.length - k)) else none

/-- Picks the column named by `side` and applies `f` to it, leaving the
other column untouched (the `let col = match side { .. }` pattern of the
source). -/
def onSide {T : Type} (side : TileSide) (left_col right_col : List T)
    (f : List T → Option (List T)) : Option (List T × List T) :=
  match side with
  | .left => (f left_col).map (fun c => (c, right_col))
  | .right => (f right_col).map (fun c => (left_col, c))

/-- Source `apply_inverse_action`: the inverse transform of each
action.  Swaps are the same find-and-swap as the forward direction;
`Cycle` maps `Down ↦ rotate_right`, `Up ↦ rotate_left`. -/
def apply_inverse_action {T : Type} (get_nature : T → TileNature) (action : Action)
    (left_col right_col : List T) : Option (List T × List T) :=
  match action with
  | .swapFirstAndLast side =>
      onSide side left_col right_col fun col =>
        listSwap col 0 (col.length - 1)
  | .swapTwoAdjacent top side =>
      onSide side left_col right_col fun col =>
        listSwap col top (top + 1)
  | .swapTwoNatures nature_a nature_b side =>
      onSide side left_col right_col fun col => do
        let index_a ← position (fun n => decide (get_nature n = nature_a)) col
        let index_b ← position (fun n => decide (get_nature n = nature_b)) col
        listSwap col index_a index_b
  | .cycle times direction side =>
      onSide side left_col right_col fun col =>
        match direction with
        | .down => rotRight col (usizeOfI32 times)
        | .up => rotLeft col (usizeOfI32 times)

/-- Source `apply_action`: the forward transform of each action.
Identical to the inverse for the three swap variants; `Cycle` maps
`Down ↦ rotate_left`, `Up ↦ rotate_right`. -/
def apply_action {T : Type} (get_nature : T → TileNature) (action : Action)
    (left_col right_col : List T) : Option (List T × List T) :=
  match action with
  | .swapFirstAndLast side =>
      onSide side left_col right_col fun col =>
        listSwap col 0 (col.length - 1)
  | .swapTwoAdjacent top side =>
      onSide side left_col right_col fun col =>
        listSwap col top (top + 1)
  | .swapTwoNatures nature_a nature_b side =>
      onSide side left_col right_col fun col => do
        let index_a ← position (fun x => decide (get_nature x = nature_a)) col
        let index_b ← position (fun x => decide (get_nature x = nature_b)) col
        listSwap col index_a index_b
  | .cycle times direction side =>
      onSide side left_col right_col fun col =>
        match direction with
        | .down => rotLeft col (usizeOfI32 times)
        | .up => rotRight col (usizeOfI32 times)

/-- The column an action's `side` field addresses. -/
def sideCol {T : Type} (side : TileSide) (lc rc : List T) : List T :=
  match side with
  | .left => lc
  | .right => rc

/-- For `SwapTwoNatures`, each referenced nature occurs exactly once in the
targeted column; no condition for the other variants. -/
def uniqueNatures {T : Type} (geta : T → TileNature) (a : Action) (lc rc : List T) : Prop :=
  match a with
  | .swapTwoNatures na nb side =>
      (sideCol side lc rc).countP (fun x => decide (geta x = na)) = 1 ∧
      (sideCol side lc rc).countP (fun x => decide (geta x = nb)) = 1
  | _ => True

/-- Parameter validity per variant, strong enough that neither transform
panics and the two transforms are mutually inverse. -/
abbrev validParams {T : Type} (geta : T → TileNature) (a : Action) (lc rc : List T) : Prop :=
  match a with
  | .swapFirstAndLast side => sideCol side lc rc ≠ []
  | .swapTwoAdjacent top side => top + 1 < (sideCol side lc rc).length
  | .swapTwoNatures na nb side =>
      (sideCol side lc rc).countP (fun x => decide (geta x = na)) = 1 ∧
      (sideCol side lc rc).countP (fun x => decide (geta x = nb)) = 1
  | .cycle times _ side =>
      0 ≤ times ∧ times < 2 ^ 31 ∧ times.toNat ≤ (sideCol side lc rc).length

/-- The find-and-swap used by `SwapTwoNatures` (identical in both
transforms). -/
def swapByNatures {T : Type} (geta : T → TileNature) (na nb : TileNature) (col : List T) :
    Option (List T) := do
  let index_a ← position (fun x => decide (geta x = na)) col
  let index_b ← position (fun x => decide (geta x = nb)) col
  listSwap col index_a index_b

/-! ### Generator embedding

`start_match` draws from `rand::thread_rng()` via `gen_range`.  We model
the RNG as a stream `rng : Nat → Nat` together with a draw counter, so a
run returns a result (or an error) plus the number of values consumed.
`GenErr.config` stands for the two `assert!` failures, `GenErr.panic`
for every other panic (`gen_range` on an empty range — which also covers
the debug-mode `usize` underflow of `tiles_order.len() - 1` —
out-of-bounds indexing, failing `unwrap`).  The hard-coded parameters of
the source (`tiles_count = 4`, `card_count = 5`, `applied_card_count = 3`,
`nature_count() = 8`) become arguments, taken in the same program order. -/

/-- Error kind of a generation run: a failed `assert!` (configuration
error) or any other panic. -/
inductive GenErr
  | config
  | panic
deriving DecidableEq, Repr

/-- State-threading monad of a generation run: draw counter in, result
and final draw counter out. -/
def GenM (α : Type) : Type := Nat → Except GenErr α × Nat

instance : Monad GenM where
  pure a := fun c => (Except.ok a, c)
  bind x f := fun c =>
    match x c with
    | (Except.ok a, c') => f a c'
    | (Except.error e, c') => (Except.error e, c')

/-- Rust `rng.gen_range(lo, hi)`: one draw from the stream, uniform in
`[lo, hi)`; panics when the range is empty. -/
def genRange (rng : Nat → Nat) (lo hi : Nat) : GenM Nat := fun c =>
  if lo < hi then (Except.ok (lo + rng c % (hi - lo)), c + 1)
  else (Except.error GenErr.panic, c)

/-- Rust `assert!(b)`: configuration error when `b` fails; consumes no draw. -/
def genAssert (b : Prop) [Decidable b] : GenM Unit := fun c =>
  (if b then Except.ok () else Except.error GenErr.config, c)

/-- Lifts a panicking operation (`unwrap`, out-of-bounds `Vec` access). -/
def liftOpt {α : Type} (x : Option α) : GenM α := fun c =>
  (match x with
    | some a => Except.ok a
    | none => Except.error GenErr.panic, c)

/-- Rust `unreachable!()`. -/
def genPanic {α : Type} : GenM α := fun c => (Except.error GenErr.panic, c)

/-- Rust `Vec::swap_remove(i)`: removes the element at `i`, moving the last
element into its place; panics when `i` is out of bounds. -/
def swapRemove {α : Type} (l : List α) (i : Nat) : Option (α × List α) :=
  if h : i < l.length then
    some (l.get ⟨i, h⟩, (l.set i (l.get ⟨l.length - 1, by omega⟩)).dropLast)
  else none

/-- Source `rand_tile_side`. -/
def rand_tile_side (rng : Nat → Nat) : GenM TileSide := do
  let k ← genRange rng 0 2
  if k = 0 then pure TileSide.left
  else if k = 1 then pure TileSide.right
  else genPanic

/-- Source `struct BuildingTileData` (`id: Option<Entity>`,
entities embedded as `Nat`). -/
structure BuildingTileData where
  id : Option Nat
  nature : TileNature
deriving DecidableEq, Repr

/-- The `tiles_order` loop of `start_match`: draw `n` natures without
replacement (via `swap_remove`) from `pool`. -/
def draw_tiles (rng : Nat → Nat) : Nat → List Nat → GenM (List TileNature)
  | 0, _ => pure []
  | n + 1, pool => do
      let i ← genRange rng 0 pool.length
      let (x, pool') ← liftOpt (swapRemove pool i)
      let rest ← draw_tiles rng n pool'
      pure (TileNature.mk x :: rest)

/-- The body of one card-generation iteration: the
`match rng.gen_range(0, 4) { .. }` expression of the source, with
parameters drawn in the source's order (`times` fixed at 1; the
commented-out `gen_range(1, 4)` is not active). -/
def gen_one_card (rng : Nat → Nat) (tiles_order : List TileNature) : GenM Action := do
  let k ← genRange rng 0 4
  if k = 0 then do
    let side ← rand_tile_side rng
    pure (Action.swapFirstAndLast side)
  else if k = 1 then do
    let top ← genRange rng 0 (tiles_order.length - 1)
    let side ← rand_tile_side rng
    pure (Action.swapTwoAdjacent top side)
  else if k = 2 then do
    let i ← genRange rng 0 tiles_order.length
    let (nature_a, pool') ← liftOpt (swapRemove tiles_order i)
    let j ← genRange rng 0 pool'.length
    let (nature_b, _) ← liftOpt (swapRemove pool' j)
    let side ← rand_tile_side rng
    pure (Action.swapTwoNatures nature_a nature_b side)
  else if k = 3 then do
    let d ← genRange rng 0 2
    let direction ←
      if d = 0 then pure CycleDirection.up
      else if d = 1 then pure CycleDirection.down
      else genPanic
    let side ← rand_tile_side rng
    pure (Action.cycle 1 direction side)
  else genPanic

/-- The card-generation loop of `start_match`: `n` random actions pushed
in draw order. -/
def gen_cards (rng : Nat → Nat) (tiles_order : List TileNature) : Nat → GenM (List Action)
  | 0 => pure []
  | n + 1 => do
      let card ← gen_one_card rng tiles_order
      let rest ← gen_cards rng tiles_order n
      pure (card :: rest)

/-- The scrambling loop of `start_match`: draw `n` actions without
replacement from `pool` and apply each one's inverse to the columns. -/
def apply_inverse_cards (rng : Nat → Nat) :
    Nat → List Action → List BuildingTileData → List BuildingTileData →
    GenM (List BuildingTileData × List BuildingTileData)
  | 0, _, lc, rc => pure (lc, rc)
  | n + 1, pool, lc, rc => do
      let i ← genRange rng 0 pool.length
      let (card_to_apply, pool') ← liftOpt (swapRemove pool i)
      let (lc', rc') ← liftOpt (apply_inverse_action (fun x => x.nature) card_to_apply lc rc)
      apply_inverse_cards rng n pool' lc' rc'

/-- Source `start_match` (generation core): asserts and draws in the source's
program order, returning the scrambled columns and the dealt actions.
Sprite/entity spawning is rendering and is not modelled. -/
def start_match (rng : Nat → Nat) (tiles_count card_count applied_card_count pool_size : Nat) :
    GenM (List BuildingTileData × List BuildingTileData × List Action) := do
  genAssert (tiles_count ≤ pool_size)
  let tiles_order ← draw_tiles rng tiles_count (List.range pool_size)
  let build_left_col := tiles_order.map (fun nature => BuildingTileData.mk none nature)
  let build_right_col := tiles_order.map (fun nature => BuildingTileData.mk none nature)
  let card_actions ← gen_cards rng tiles_order card_count
  genAssert (applied_card_count ≤ card_count)
  let (lc, rc) ← apply_inverse_cards rng applied_card_count card_actions build_left_col build_right_col
  pure (lc, rc, card_actions)

/-! ### Match state machine (`handle_input`) -/

/-- Source `struct TileData` (entity ids embedded as `Nat`). -/
structure TileData where
  id : Nat
  nature : TileNature
deriving DecidableEq, Repr

/-- Source `struct CardData`: an action plus `used: Option<usize>` bookkeeping. -/
structure CardData where
  action : Action
  used : Option Nat
  id : Nat
deriving DecidableEq, Repr

/-- Source `struct MatchStatePlaying`. -/
structure MatchStatePlaying where
  left_col : List TileData
  right_col : List TileData
  cards : List CardData
  hovered_card : Option Nat
deriving DecidableEq, Repr

/-- Source `enum MatchState`. -/
inductive MatchState
  | ready
  | playing (s : MatchStatePlaying)
deriving DecidableEq, Repr

/-- The three inputs `handle_input` reacts to (Left key, Right key,
Space/Return). -/
inductive GameInput
  | hoverPrevious
  | hoverNext
  | activate
deriving DecidableEq, Repr

/-- Rust `Iterator::max` over the used-order values. -/
def iter_max : List Nat → Option Nat
  | [] => none
  | x :: xs =>
    match iter_max xs with
    | none => some x
    | some m => some (max x m)

/-- The used-order assigned on activation:
`match cards.filter_map(used).max() { Some(i) => i + 1, None => 0 }`. -/
def next_used_order (cards : List CardData) : Nat :=
  match iter_max (cards.filterMap (fun x => x.used)) with
  | some i => i + 1
  | none => 0

/-- The victory check of `handle_input`:
`left_col.zip(right_col).all(|(l, r)| l.nature == r.nature)`. -/
def natures_in_the_columns_match (s : MatchStatePlaying) : Bool :=
  (s.left_col.zip s.right_col).all (fun p => decide (p.1.nature = p.2.nature))

/-- One key press handled by `handle_input`.  `none` embeds a panic
(out-of-bounds card index, or `apply_action` panicking).  Event sends
(`UpdateTilesPosition`, `UpdateCardsStyle`) and the `info!` logging are
rendering-side effects and are not part of the state. -/
def handle_input (input : GameInput) (ms : MatchState) : Option MatchState :=
  match ms with
  | .ready => some .ready
  | .playing s =>
    match input with
    | .hoverPrevious =>
        let hovered_card := s.hovered_card.map (fun hovered_card =>
          if hovered_card = 0 then s.cards.length - 1 else hovered_card - 1)
        some (.playing { s with hovered_card := hovered_card })
    | .hoverNext =>
        let hovered_card := s.hovered_card.map (fun hovered_card =>
          if hovered_card = s.cards.length - 1 then 0 else hovered_card + 1)
        some (.playing { s with hovered_card := hovered_card })
    | .activate =>
        match s.hovered_card with
        | none => some (.playing s)
        | some i =>
          if h : i < s.cards.length then
            let card := s.cards.get ⟨i, h⟩
            if card.used = none then
              match apply_action (fun x => x.nature) card.action s.left_col s.right_col with
              | none => none
              | some (l', r') =>
                some (.playing { s with
                  left_col := l'
                  right_col := r'
                  cards := s.cards.set i { card with used := some (next_used_order s.cards) } })
            else some (.playing s)
          else none

/-- The `Playing` state after a successful activation of the unused
card at index `i`: columns replaced by the transformed ones, the card
marked used with the next sequential order. -/
def activated_state (s : MatchStatePlaying) (i : Nat) (h : i < s.cards.length)
    (l' r' : List TileData) : MatchStatePlaying where
  left_col := l'
  right_col := r'
  cards := s.cards.set i { s.cards.get ⟨i, h⟩ with used := some (next_used_order s.cards) }
  hovered_card := s.hovered_card

/-- A sequence of key presses processed one at a time, in arrival order. -/
def run_inputs : List GameInput → MatchState → Option MatchState
  | [], ms => some ms
  | input :: rest, ms => (handle_input input ms).bind (run_inputs rest)

/-- Forward application of a list of actions, first to last. -/
def applyForwardList {T : Type} (geta : T → TileNature) :
    List Action → List T → List T → Option (List T × List T)
  | [], lc, rc => some (lc, rc)
  | a :: rest, lc, rc =>
      (apply_action geta a lc rc).bind (fun p => applyForwardList geta rest p.1 p.2)

/-- The used-order values currently assigned, in card order. -/
def usedVals (s : MatchStatePlaying) : List Nat := s.cards.filterMap (fun c => c.used)

/-- A freshly dealt hand: no card used yet. -/
abbrev allUnused (s : MatchStatePlaying) : Prop := ∀ c ∈ s.cards, c.used = none

/-- Bookkeeping invariant: the assigned used-order values are exactly
`0, 1, …, k-1` where `k` is the number of used cards. -/
abbrev usedOk (ms : MatchState) : Prop :=
  match ms with
  | .ready => True
  | .playing s => ((usedVals s : List Nat) : Multiset Nat) = Multiset.range (usedVals s).length

/-- The `side` field common to all four variants. -/
def action_side : Action → TileSide
  | .swapFirstAndLast side => side
  | .swapTwoAdjacent _ side => side
  | .swapTwoNatures _ _ side => side
  | .cycle _ _ side => side

/-- Shape of the actions the card generator can produce, relative to the
drawn `tiles_order`. -/
def ActWF (tiles : List TileNature) : Action → Prop
  | .swapFirstAndLast _ => True
  | .swapTwoAdjacent top _ => top + 1 < tiles.length
  | .swapTwoNatures na nb _ => na ∈ tiles ∧ nb ∈ tiles ∧ na ≠ nb
  | .cycle t _ _ => t = 1

/-- The engine preconditions claimed for generator-produced actions:
`SwapTwoAdjacent` top in `[0, tiles_count - 2]`, `SwapTwoNatures` on two
distinct symbols present in both columns, `Cycle` with `times = 1`. -/
def enginePre (tiles_count : Nat) {T : Type} (geta : T → TileNature) (a : Action)
    (lc rc : List T) : Prop :=
  match a with
  | .swapFirstAndLast _ => True
  | .swapTwoAdjacent top _ => top + 2 ≤ tiles_count
  | .swapTwoNatures na nb _ =>
      na ≠ nb ∧ na ∈ lc.map geta ∧ nb ∈ lc.map geta ∧ na ∈ rc.map geta ∧ nb ∈ rc.map geta
  | .cycle t _ _ => t = 1

example :
    apply_action id (.cycle 1 .up .left)
      [TileNature.mk 0, TileNature.mk 1, TileNature.mk 2, TileNature.mk 3] [] =
      some ([TileNature.mk 3, TileNature.mk 0, TileNature.mk 1, TileNature.mk 2], []) := by
  decide

example :
    apply_inverse_action id (.cycle 1 .up .left)
      [TileNature.mk 0, TileNature.mk 1, TileNature.mk 2, TileNature.mk 3] [] =
      some ([TileNature.mk 1, TileNature.mk 2, TileNature.mk 3, TileNature.mk 0], []) := by
  decide

example :
    apply_action id (.swapTwoAdjacent 0 .left)
      [TileNature.mk 0, TileNature.mk 1, TileNature.mk 2] [] =
      some ([TileNature.mk 1, TileNature.mk 0, TileNature.mk 2], []) := by
  decide

/-! ### Basic lemmas about the embedded `Vec` operations -/

theorem get_cons_set_perm {T : Type} (l : List T) (i : Nat) (h : i < l.length) (y : T) :
    (l.get ⟨i, h⟩ :: l.set i y).Perm (y :: l) := by
  induction l generalizing i with
  | nil => simp at h
  | cons a t ih =>
    cases i with
    | zero => simpa using List.Perm.swap y a t
    | succ n =>
      have hn : n < t.length := by simpa using h
      have e1 : (a :: t).get ⟨n + 1, h⟩ :: (a :: t).set (n + 1) y
          = t.get ⟨n, hn⟩ :: a :: t.set n y := by simp
      rw [e1]
      exact (List.Perm.swap a (t.get ⟨n, hn⟩) _).trans
        (((ih n hn).cons a).trans (List.Perm.swap y a t))

theorem set_getElem_self {T : Type} (l : List T) (i : Nat) (h : i < l.length) :
    l.set i (l.get ⟨i, h⟩) = l := by
  apply List.ext_getElem (by simp)
  intro k h1 h2
  rw [List.getElem_set]
  split <;> simp_all

theorem listSwap_eq {T : Type} (l : List T) (i j : Nat) (hi : i < l.length) (hj : j < l.length) :
    listSwap l i j = some ((l.set i (l.get ⟨j, hj⟩)).set j (l.get ⟨i, hi⟩)) := by
  simp [listSwap, hi, hj]

theorem listSwap_bounds {T : Type} {l m : List T} {i j : Nat} (h : listSwap l i j = some m) :
    i < l.length ∧ j < l.length := by
  by_cases hc : i < l.length ∧ j < l.length
  · exact hc
  · simp [listSwap, hc] at h

theorem length_listSwap {T : Type} {l m : List T} {i j : Nat} (h : listSwap l i j = some m) :
    m.length = l.length := by
  obtain ⟨hi, hj⟩ := listSwap_bounds h
  rw [listSwap_eq l i j hi hj] at h
  cases h
  simp

theorem listSwap_getElem {T : Type} {l m : List T} {i j : Nat} (h : listSwap l i j = some m)
    (k : Nat) (hk : k < m.length) :
    m.get ⟨k, hk⟩ =
      if k = j then l.get ⟨i, (listSwap_bounds h).1⟩
      else if k = i then l.get ⟨j, (listSwap_bounds h).2⟩
      else l.get ⟨k, by rw [← length_listSwap h]; exact hk⟩ := by
  obtain ⟨hi, hj⟩ := listSwap_bounds h
  rw [listSwap_eq l i j hi hj] at h
  cases h
  simp only [List.get_eq_getElem, List.getElem_set]
  by_cases h1 : k = j <;> by_cases h2 : k = i <;>
    simp [h1, h2, if_neg, eq_comm] <;>
    rw [if_neg (fun hh => h1 hh.symm), if_neg (fun hh => h2 hh.symm)]

theorem listSwap_perm {T : Type} {l m : List T} {i j : Nat} (h : listSwap l i j = some m) :
    m.Perm l := by
  obtain ⟨hi, hj⟩ := listSwap_bounds h
  by_cases hij : i = j
  · subst hij
    rw [listSwap_eq l i i hi hi] at h
    rw [set_getElem_self l i hi] at h
    rw [set_getElem_self l i hi] at h
    cases h
    exact List.Perm.refl l
  · rw [listSwap_eq l i j hi hj] at h
    cases h
    have hj1 : j < (l.set i (l.get ⟨j, hj⟩)).length := by simpa using hj
    have hval : (l.set i (l.get ⟨j, hj⟩)).get ⟨j, hj1⟩ = l.get ⟨j, hj⟩ := by
      simp only [List.get_eq_getElem]
      rw [List.getElem_set_ne hij]
    have P2 := get_cons_set_perm (l.set i (l.get ⟨j, hj⟩)) j hj1 (l.get ⟨i, hi⟩)
    rw [hval] at P2
    have P1 := get_cons_set_perm l i hi (l.get ⟨j, hj⟩)
    exact (P2.trans P1).cons_inv

theorem listSwap_roundtrip {T : Type} {l m : List T} {i j : Nat} (h : listSwap l i j = some m) :
    listSwap m i j = some l := by
  obtain ⟨hi, hj⟩ := listSwap_bounds h
  have hlen := length_listSwap h
  have hi' : i < m.length := by omega
  have hj' : j < m.length := by omega
  rw [listSwap_eq m i j hi' hj']
  congr 1
  have Hm := fun (k : Nat) (hk : k < m.length) => listSwap_getElem h k hk
  simp only [List.get_eq_getElem] at Hm
  have hmi : m[i] = if i = j then l[i] else l[j] := by
    rw [Hm i hi']
    by_cases e : i = j <;> simp [e]
  have hmj : m[j] = l[i] := by
    rw [Hm j hj']
    simp
  apply List.ext_getElem (by simp [hlen])
  intro k h1 h2
  simp only [List.getElem_set, List.get_eq_getElem]
  by_cases e1 : j = k
  · subst e1
    rw [if_pos rfl, hmi]
    by_cases e3 : i = j <;> simp [e3]
  · rw [if_neg e1]
    by_cases e2 : i = k
    · subst e2
      rw [if_pos rfl, hmj]
    · rw [if_neg e2, Hm k (by omega)]
      rw [if_neg (fun hh => e1 hh.symm), if_neg (fun hh => e2 hh.symm)]

theorem listSwap_comm {T : Type} (l : List T) (i j : Nat) : listSwap l i j = listSwap l j i := by
  by_cases h : i < l.length ∧ j < l.length
  · rw [listSwap_eq l i j h.1 h.2, listSwap_eq l j i h.2 h.1]
    congr 1
    apply List.ext_getElem (by simp)
    intro k h1 h2
    simp only [List.getElem_set, List.get_eq_getElem]
    by_cases e1 : i = k <;> by_cases e2 : j = k <;> simp [e1, e2]
  · have h' : ¬ (j < l.length ∧ i < l.length) := fun hh => h ⟨hh.2, hh.1⟩
    simp [listSwap, h, h']

theorem rotLeft_rotRight {T : Type} {l m : List T} {n : Nat} (h : rotLeft l n = some m) :
    rotRight m n = some l := by
  have hn : n ≤ l.length := by
    by_cases hc : n ≤ l.length
    · exact hc
    · simp [rotLeft, hc] at h
  rw [rotLeft, if_pos hn] at h
  cases h
  have hlen : (l.rotate n).length = l.length := l.length_rotate n
  rw [rotRight, if_pos (by omega), hlen, List.rotate_rotate,
    Nat.add_sub_cancel' hn, List.rotate_length]

theorem rotRight_rotLeft {T : Type} {l m : List T} {n : Nat} (h : rotRight l n = some m) :
    rotLeft m n = some l := by
  have hn : n ≤ l.length := by
    by_cases hc : n ≤ l.length
    · exact hc
    · simp [rotRight, hc] at h
  rw [rotRight, if_pos hn] at h
  cases h
  have hlen : (l.rotate (l.length - n)).length = l.length := l.length_rotate _
  rw [rotLeft, if_pos (by omega), List.rotate_rotate, Nat.sub_add_cancel hn,
    List.rotate_length]

/-! ### Lemmas about `position` and `countP` -/

theorem position_some_lt {T : Type} {p : T → Bool} {l : List T} {i : Nat}
    (h : position p l = some i) : i < l.length := by
  induction l generalizing i with
  | nil => simp [position] at h
  | cons x xs ih =>
    by_cases hp : p x
    · simp [position, hp] at h
      simp only [List.length_cons]
      omega
    · simp [position, hp] at h
      obtain ⟨a, ha, rfl⟩ := h
      have := ih ha
      simp only [List.length_cons]
      omega

theorem position_some_sat {T : Type} {p : T → Bool} {l : List T} {i : Nat}
    (h : position p l = some i) : p (l.get ⟨i, position_some_lt h⟩) = true := by
  induction l generalizing i with
  | nil => simp [position] at h
  | cons x xs ih =>
    by_cases hp : p x
    · simp [position, hp] at h
      subst h
      simpa using hp
    · simp [position, hp] at h
      obtain ⟨a, ha, rfl⟩ := h
      simpa using ih ha

theorem position_eq_some_of {T : Type} {p : T → Bool} {l : List T} {i : Nat} (hi : i < l.length)
    (hp : p (l.get ⟨i, hi⟩) = true)
    (hfirst : ∀ k (hk : k < l.length), k < i → p (l.get ⟨k, hk⟩) = false) :
    position p l = some i := by
  induction l generalizing i with
  | nil => simp at hi
  | cons x xs ih =>
    cases i with
    | zero =>
      simp only [List.get_eq_getElem, List.getElem_cons_zero] at hp
      simp [position, hp]
    | succ n =>
      have hx : p x = false := by
        have := hfirst 0 (by simp) (by omega)
        simpa using this
      have hn : n < xs.length := by simpa using hi
      have hpx : p (xs.get ⟨n, hn⟩) = true := by simpa using hp
      have hfx : ∀ k (hk : k < xs.length), k < n → p (xs.get ⟨k, hk⟩) = false := by
        intro k hk hkn
        have := hfirst (k + 1) (by simpa using hk) (by omega)
        simpa using this
      simp [position, hx, ih hn hpx hfx]

theorem two_le_countP {T : Type} {p : T → Bool} {l : List T} {i j : Nat} (hij : i < j)
    (hj : j < l.length) (hpi : p (l.get ⟨i, by omega⟩) = true)
    (hpj : p (l.get ⟨j, hj⟩) = true) : 2 ≤ l.countP p := by
  induction l generalizing i j with
  | nil => simp at hj
  | cons x xs ih =>
    cases i with
    | zero =>
      obtain ⟨m, rfl⟩ : ∃ m, j = m + 1 := ⟨j - 1, by omega⟩
      have hm : m < xs.length := by simpa using hj
      have hx : p x = true := by simpa using hpi
      have hxs : 0 < xs.countP p := by
        rw [List.countP_pos]
        exact ⟨xs.get ⟨m, hm⟩, xs.get_mem _ _, by simpa using hpj⟩
      rw [List.countP_cons_of_pos _ _ hx]
      omega
    | succ n =>
      obtain ⟨m, rfl⟩ : ∃ m, j = m + 1 := ⟨j - 1, by omega⟩
      have hm : m < xs.length := by simpa using hj
      have h2 := @ih n m (by omega) hm (by simpa using hpi) (by simpa using hpj)
      rw [List.countP_cons]
      omega

theorem countP_one_unique {T : Type} {p : T → Bool} {l : List T} (hc : l.countP p = 1)
    {i j : Nat} (hi : i < l.length) (hj : j < l.length)
    (hpi : p (l.get ⟨i, hi⟩) = true) (hpj : p (l.get ⟨j, hj⟩) = true) : i = j := by
  rcases lt_trichotomy i j with hlt | heq | hgt
  · have := two_le_countP hlt hj hpi hpj
    omega
  · exact heq
  · have := two_le_countP hgt hi hpj hpi
    omega

theorem position_eq_of_countP_one {T : Type} {p : T → Bool} {l : List T} {i : Nat}
    (hc : l.countP p = 1) (hi : i < l.length) (hp : p (l.get ⟨i, hi⟩) = true) :
    position p l = some i := by
  apply position_eq_some_of hi hp
  intro k hk hki
  by_cases hpk : p (l.get ⟨k, hk⟩) = true
  · have := countP_one_unique hc hk hi hpk hp
    omega
  · simpa using hpk

theorem position_isSome {T : Type} {p : T → Bool} {l : List T} (h : ∃ x ∈ l, p x) :
    (position p l).isSome := by
  induction l with
  | nil => simp at h
  | cons x xs ih =>
    by_cases hp : p x
    · simp [position, hp]
    · obtain ⟨y, hy, hpy⟩ := h
      rcases List.mem_cons.mp hy with rfl | hmem
      · exact absurd hpy hp
      · have := ih ⟨y, hmem, hpy⟩
        cases hpos : position p xs with
        | none => rw [hpos] at this; simp at this
        | some a => simp [position, hp, hpos]

theorem usizeOfI32_eq {t : Int} (h0 : 0 ≤ t) (h31 : t < 2 ^ 31) : usizeOfI32 t = t.toNat := by
  unfold usizeOfI32
  rw [Int.emod_eq_of_lt h0 (by omega)]

theorem onSide_some_elim {T : Type} {side : TileSide} {lc rc : List T}
    {f : List T → Option (List T)} {p : List T × List T}
    (h : onSide side lc rc f = some p) :
    (∃ c, side = .left ∧ f lc = some c ∧ p = (c, rc)) ∨
    (∃ c, side = .right ∧ f rc = some c ∧ p = (lc, c)) := by
  cases side
  · left
    cases hf : f lc with
    | none => simp [onSide, hf] at h
    | some c =>
      simp [onSide, hf] at h
      exact ⟨c, rfl, rfl, h.symm⟩
  · right
    cases hf : f rc with
    | none => simp [onSide, hf] at h
    | some c =>
      simp [onSide, hf] at h
      exact ⟨c, rfl, rfl, h.symm⟩

theorem onSide_left_intro {T : Type} {lc rc c : List T} {f : List T → Option (List T)}
    (h : f lc = some c) : onSide .left lc rc f = some (c, rc) := by
  simp [onSide, h]

theorem onSide_right_intro {T : Type} {lc rc c : List T} {f : List T → Option (List T)}
    (h : f rc = some c) : onSide .right lc rc f = some (lc, c) := by
  simp [onSide, h]

theorem swapByNatures_roundtrip {T : Type} (geta : T → TileNature) {na nb : TileNature}
    {col col' : List T}
    (hca : col.countP (fun x => decide (geta x = na)) = 1)
    (hcb : col.countP (fun x => decide (geta x = nb)) = 1)
    (h : swapByNatures geta na nb col = some col') :
    swapByNatures geta na nb col' = some col := by
  unfold swapByNatures at h ⊢
  cases hpa : position (fun x => decide (geta x = na)) col with
  | none => simp [hpa] at h
  | some ia =>
  cases hpb : position (fun x => decide (geta x = nb)) col with
  | none => simp [hpa, hpb] at h
  | some ib =>
  simp only [hpa, hpb, Option.bind_eq_bind, Option.some_bind] at h
  have hia_lt := position_some_lt hpa
  have hib_lt := position_some_lt hpb
  have hpa_sat := position_some_sat hpa
  have hpb_sat := position_some_sat hpb
  have hperm : col'.Perm col := listSwap_perm h
  have hca' : col'.countP (fun x => decide (geta x = na)) = 1 := by
    rw [hperm.countP_eq]; exact hca
  have hcb' : col'.countP (fun x => decide (geta x = nb)) = 1 := by
    rw [hperm.countP_eq]; exact hcb
  have hlen := length_listSwap h
  by_cases e : ia = ib
  · subst e
    have hcol : col' = col := by
      rw [listSwap_eq col ia ia hia_lt hia_lt, set_getElem_self, set_getElem_self] at h
      exact (Option.some_inj.mp h).symm
    subst hcol
    simp only [hpa, hpb, Option.bind_eq_bind, Option.some_bind]
    exact h
  · have hget := fun (k : Nat) (hk : k < col'.length) => listSwap_getElem h k hk
    have hcol_ib : col'.get ⟨ib, by omega⟩ = col.get ⟨ia, hia_lt⟩ := by
      rw [hget ib (by omega)]
      simp
    have hcol_ia : col'.get ⟨ia, by omega⟩ = col.get ⟨ib, hib_lt⟩ := by
      rw [hget ia (by omega)]
      simp [e]
    have hpa' : position (fun x => decide (geta x = na)) col' = some ib := by
      apply position_eq_of_countP_one hca' (by omega)
      rw [hcol_ib]
      exact hpa_sat
    have hpb' : position (fun x => decide (geta x = nb)) col' = some ia := by
      apply position_eq_of_countP_one hcb' (by omega)
      rw [hcol_ia]
      exact hpb_sat
    simp only [hpa', hpb', Option.bind_eq_bind, Option.some_bind]
    rw [listSwap_comm col' ib ia]
    exact listSwap_roundtrip h

theorem onSide_roundtrip {T : Type} {side : TileSide} {lc rc lc' rc' : List T}
    {f g : List T → Option (List T)}
    (hfg : ∀ col col', col = sideCol side lc rc → f col = some col' → g col' = some col)
    (h : onSide side lc rc f = some (lc', rc')) :
    onSide side lc' rc' g = some (lc, rc) := by
  rcases onSide_some_elim h with ⟨c, hside, hf, hp⟩ | ⟨c, hside, hf, hp⟩ <;> subst hside
  · injection hp with h1 h2
    subst h1
    subst h2
    exact onSide_left_intro (hfg lc lc' rfl hf)
  · injection hp with h1 h2
    subst h1
    subst h2
    exact onSide_right_intro (hfg rc rc' rfl hf)

theorem inv_then_fwd {T : Type} (geta : T → TileNature) {a : Action} {lc rc lc' rc' : List T}
    (hu : uniqueNatures geta a lc rc)
    (h : apply_inverse_action geta a lc rc = some (lc', rc')) :
    apply_action geta a lc' rc' = some (lc, rc) := by
  cases a with
  | swapFirstAndLast side =>
    simp only [apply_inverse_action] at h
    simp only [apply_action]
    refine onSide_roundtrip (fun col col' hcol hf => ?_) h
    have hl := length_listSwap hf
    rw [hl]
    exact listSwap_roundtrip hf
  | swapTwoAdjacent top side =>
    simp only [apply_inverse_action] at h
    simp only [apply_action]
    exact onSide_roundtrip (fun col col' hcol hf => listSwap_roundtrip hf) h
  | swapTwoNatures na nb side =>
    simp only [apply_inverse_action] at h
    simp only [apply_action]
    refine onSide_roundtrip (fun col col' hcol hf => ?_) h
    subst hcol
    exact swapByNatures_roundtrip geta hu.1 hu.2 hf
  | cycle times direction side =>
    cases direction with
    | up =>
      simp only [apply_inverse_action] at h
      simp only [apply_action]
      exact onSide_roundtrip (fun col col' hcol hf => rotLeft_rotRight hf) h
    | down =>
      simp only [apply_inverse_action] at h
      simp only [apply_action]
      exact onSide_roundtrip (fun col col' hcol hf => rotRight_rotLeft hf) h

theorem fwd_then_inv {T : Type} (geta : T → TileNature) {a : Action} {lc rc lc' rc' : List T}
    (hu : uniqueNatures geta a lc rc)
    (h : apply_action geta a lc rc = some (lc', rc')) :
    apply_inverse_action geta a lc' rc' = some (lc, rc) := by
  cases a with
  | swapFirstAndLast side =>
    simp only [apply_action] at h
    simp only [apply_inverse_action]
    refine onSide_roundtrip (fun col col' hcol hf => ?_) h
    have hl := length_listSwap hf
    rw [hl]
    exact listSwap_roundtrip hf
  | swapTwoAdjacent top side =>
    simp only [apply_action] at h
    simp only [apply_inverse_action]
    exact onSide_roundtrip (fun col col' hcol hf => listSwap_roundtrip hf) h
  | swapTwoNatures na nb side =>
    simp only [apply_action] at h
    simp only [apply_inverse_action]
    refine onSide_roundtrip (fun col col' hcol hf => ?_) h
    subst hcol
    exact swapByNatures_roundtrip geta hu.1 hu.2 hf
  | cycle times direction side =>
    cases direction with
    | up =>
      simp only [apply_action] at h
      simp only [apply_inverse_action]
      exact onSide_roundtrip (fun col col' hcol hf => rotRight_rotLeft hf) h
    | down =>
      simp only [apply_action] at h
      simp only [apply_inverse_action]
      exact onSide_roundtrip (fun col col' hcol hf => rotLeft_rotRight hf) h

theorem countP_le_one_of_nodup {T : Type} (geta : T → TileNature) {l : List T}
    (h : (l.map geta).Nodup) (a : TileNature) :
    l.countP (fun x => decide (geta x = a)) ≤ 1 := by
  induction l with
  | nil => simp
  | cons x xs ih =>
    rw [List.map_cons, List.nodup_cons] at h
    rw [List.countP_cons]
    by_cases hx : geta x = a
    · have hzero : xs.countP (fun x => decide (geta x = a)) = 0 := by
        rw [List.countP_eq_zero]
        intro y hy
        simp only [decide_eq_true_eq]
        intro hya
        exact h.1 (by rw [← hx] at hya; exact hya ▸ List.mem_map_of_mem geta hy)
      simp [hzero, hx]
    · simp [hx, ih h.2]

/-! ### Lemmas about the generation monad -/

theorem genm_bind_apply {α β : Type} (x : GenM α) (f : α → GenM β) (c : Nat) :
    (x >>= f) c =
      match x c with
      | (Except.ok a, c') => f a c'
      | (Except.error e, c') => (Except.error e, c') := rfl

theorem genm_pure_apply {α : Type} (a : α) (c : Nat) :
    (pure a : GenM α) c = (Except.ok a, c) := rfl

theorem genm_bind_ok {α β : Type} {x : GenM α} {f : α → GenM β} {c c2 : Nat} {b : β}
    (h : (x >>= f) c = (Except.ok b, c2)) :
    ∃ a c1, x c = (Except.ok a, c1) ∧ f a c1 = (Except.ok b, c2) := by
  rw [genm_bind_apply] at h
  rcases hx : x c with ⟨ea, c1⟩
  rw [hx] at h
  cases ea with
  | ok a => exact ⟨a, c1, rfl, h⟩
  | error e => simp at h

theorem genm_pure_ok {α : Type} {a b : α} {c c2 : Nat}
    (h : (pure a : GenM α) c = (Except.ok b, c2)) : b = a ∧ c2 = c := by
  rw [genm_pure_apply] at h
  refine ⟨?_, ?_⟩ <;> cases h <;> rfl

theorem genRange_ok {rng : Nat → Nat} {lo hi c c2 v : Nat}
    (h : genRange rng lo hi c = (Except.ok v, c2)) :
    lo ≤ v ∧ v < hi ∧ c2 = c + 1 := by
  unfold genRange at h
  by_cases hlt : lo < hi
  · rw [if_pos hlt] at h
    injection h with h1 h2
    injection h1 with h1
    subst h1
    refine ⟨by omega, ?_, h2.symm⟩
    have : rng c % (hi - lo) < hi - lo := Nat.mod_lt _ (by omega)
    omega
  · rw [if_neg hlt] at h
    simp at h

theorem genAssert_ok {b : Prop} [Decidable b] {c c2 : Nat} {u : Unit}
    (h : genAssert b c = (Except.ok u, c2)) : b ∧ c2 = c := by
  unfold genAssert at h
  by_cases hb : b
  · rw [if_pos hb] at h
    injection h with h1 h2
    exact ⟨hb, h2.symm⟩
  · rw [if_neg hb] at h
    simp at h

theorem liftOpt_ok {α : Type} {x : Option α} {a : α} {c c2 : Nat}
    (h : liftOpt x c = (Except.ok a, c2)) : x = some a ∧ c2 = c := by
  unfold liftOpt at h
  cases x with
  | none => simp at h
  | some y =>
    injection h with h1 h2
    injection h1 with h1
    exact ⟨by rw [h1], h2.symm⟩

/-! ### Lemmas about `swap_remove` -/

theorem dropLast_set {α : Type} (l : List α) (i : Nat) (y : α) (h : i < l.length - 1) :
    (l.set i y).dropLast = l.dropLast.set i y := by
  apply List.ext_getElem (by simp)
  intro k h1 h2
  have hk : k < l.length - 1 := by simpa using h1
  rw [List.getElem_dropLast, List.getElem_set, List.getElem_set, List.getElem_dropLast]

theorem swapRemove_perm {α : Type} {l : List α} {i : Nat} {x : α} {l' : List α}
    (h : swapRemove l i = some (x, l')) : l.Perm (x :: l') := by
  have hi : i < l.length := by
    by_cases hc : i < l.length
    · exact hc
    · simp [swapRemove, hc] at h
  have hpos : 0 < l.length := by omega
  have hne : l ≠ [] := by
    cases l
    · simp at hpos
    · simp
  rw [swapRemove, dif_pos hi] at h
  injection h with h1
  injection h1 with hx hl'
  subst hx
  have hgl : l.getLast hne = l.get ⟨l.length - 1, by omega⟩ := List.getLast_eq_get l hne
  have hconcat : l.dropLast ++ [l.get ⟨l.length - 1, by omega⟩] = l := by
    rw [← hgl]
    exact List.dropLast_append_getLast hne
  have hback : (l.get ⟨l.length - 1, by omega⟩ :: l.dropLast).Perm l := by
    conv_rhs => rw [← hconcat]
    exact (List.perm_append_singleton _ _).symm
  by_cases hlast : i = l.length - 1
  · subst hlast
    rw [set_getElem_self] at hl'
    rw [← hl']
    exact hback.symm
  · have hi' : i < l.length - 1 := by omega
    rw [dropLast_set l i _ hi'] at hl'
    have hidl : i < l.dropLast.length := by simpa using hi'
    have hget : l.dropLast.get ⟨i, hidl⟩ = l.get ⟨i, hi⟩ := by
      simp only [List.get_eq_getElem]
      rw [List.getElem_dropLast]
    have hP := get_cons_set_perm l.dropLast i hidl (l.get ⟨l.length - 1, by omega⟩)
    rw [hget, hl'] at hP
    exact (hP.trans hback).symm

theorem swapRemove_mem {α : Type} {l : List α} {i : Nat} {x : α} {l' : List α}
    (h : swapRemove l i = some (x, l')) : x ∈ l :=
  (swapRemove_perm h).symm.subset (List.mem_cons_self x l')

theorem swapRemove_subset {α : Type} {l : List α} {i : Nat} {x : α} {l' : List α}
    (h : swapRemove l i = some (x, l')) : ∀ y ∈ l', y ∈ l :=
  fun y hy => (swapRemove_perm h).symm.subset (List.mem_cons_of_mem x hy)

theorem swapRemove_nodup {α : Type} {l : List α} {i : Nat} {x : α} {l' : List α}
    (h : swapRemove l i = some (x, l')) (hnd : l.Nodup) : x ∉ l' ∧ l'.Nodup := by
  have := ((swapRemove_perm h).nodup_iff).mp hnd
  rw [List.nodup_cons] at this
  exact this

/-! ### Permutation facts for the transforms -/

theorem rotLeft_perm {T : Type} {l m : List T} {n : Nat} (h : rotLeft l n = some m) :
    m.Perm l := by
  by_cases hn : n ≤ l.length
  · rw [rotLeft, if_pos hn] at h
    cases h
    exact l.rotate_perm n
  · simp [rotLeft, hn] at h

theorem rotRight_perm {T : Type} {l m : List T} {n : Nat} (h : rotRight l n = some m) :
    m.Perm l := by
  by_cases hn : n ≤ l.length
  · rw [rotRight, if_pos hn] at h
    cases h
    exact l.rotate_perm _
  · simp [rotRight, hn] at h

theorem swapByNatures_perm {T : Type} {geta : T → TileNature} {na nb : TileNature}
    {col col' : List T} (h : swapByNatures geta na nb col = some col') : col'.Perm col := by
  unfold swapByNatures at h
  simp only [Option.bind_eq_bind] at h
  rcases Option.bind_eq_some.mp h with ⟨ia, hpa, h⟩
  rcases Option.bind_eq_some.mp h with ⟨ib, hpb, h⟩
  exact listSwap_perm h

theorem onSide_perm_elim {T : Type} {side : TileSide} {lc rc lc' rc' : List T}
    {f : List T → Option (List T)}
    (hf : ∀ col col', f col = some col' → col'.Perm col)
    (h : onSide side lc rc f = some (lc', rc')) :
    lc'.Perm lc ∧ rc'.Perm rc ∧ (side = .left → rc' = rc) ∧ (side = .right → lc' = lc) := by
  rcases onSide_some_elim h with ⟨c, hside, hfc, hp⟩ | ⟨c, hside, hfc, hp⟩ <;> subst hside <;>
    (injection hp with h1 h2; subst h1; subst h2)
  · exact ⟨hf _ _ hfc, List.Perm.refl _, fun _ => rfl, fun hco => TileSide.noConfusion hco⟩
  · exact ⟨List.Perm.refl _, hf _ _ hfc, fun hco => TileSide.noConfusion hco, fun _ => rfl⟩

theorem apply_action_perm {T : Type} (geta : T → TileNature) {a : Action}
    {lc rc lc' rc' : List T} (h : apply_action geta a lc rc = some (lc', rc')) :
    lc'.Perm lc ∧ rc'.Perm rc ∧
      (action_side a = .left → rc' = rc) ∧ (action_side a = .right → lc' = lc) := by
  cases a with
  | swapFirstAndLast side =>
    simp only [apply_action] at h
    exact onSide_perm_elim (fun col col' hc => listSwap_perm hc) h
  | swapTwoAdjacent top side =>
    simp only [apply_action] at h
    exact onSide_perm_elim (fun col col' hc => listSwap_perm hc) h
  | swapTwoNatures na nb side =>
    simp only [apply_action] at h
    exact onSide_perm_elim (fun col col' hc => swapByNatures_perm hc) h
  | cycle times direction side =>
    cases direction with
    | up =>
      simp only [apply_action] at h
      exact onSide_perm_elim (fun col col' hc => rotRight_perm hc) h
    | down =>
      simp only [apply_action] at h
      exact onSide_perm_elim (fun col col' hc => rotLeft_perm hc) h

theorem apply_inverse_action_perm {T : Type} (geta : T → TileNature) {a : Action}
    {lc rc lc' rc' : List T} (h : apply_inverse_action geta a lc rc = some (lc', rc')) :
    lc'.Perm lc ∧ rc'.Perm rc ∧
      (action_side a = .left → rc' = rc) ∧ (action_side a = .right → lc' = lc) := by
  cases a with
  | swapFirstAndLast side =>
    simp only [apply_inverse_action] at h
    exact onSide_perm_elim (fun col col' hc => listSwap_perm hc) h
  | swapTwoAdjacent top side =>
    simp only [apply_inverse_action] at h
    exact onSide_perm_elim (fun col col' hc => listSwap_perm hc) h
  | swapTwoNatures na nb side =>
    simp only [apply_inverse_action] at h
    exact onSide_perm_elim (fun col col' hc => swapByNatures_perm hc) h
  | cycle times direction side =>
    cases direction with
    | up =>
      simp only [apply_inverse_action] at h
      exact onSide_perm_elim (fun col col' hc => rotLeft_perm hc) h
    | down =>
      simp only [apply_inverse_action] at h
      exact onSide_perm_elim (fun col col' hc => rotRight_perm hc) h

theorem countP_pos_of_position {T : Type} {p : T → Bool} {l : List T} {i : Nat}
    (h : position p l = some i) : 0 < l.countP p := by
  rw [List.countP_pos_iff]
  exact ⟨l.get ⟨i, position_some_lt h⟩, l.get_mem _ _, position_some_sat h⟩

theorem swapByNatures_counts {T : Type} (geta : T → TileNature) {na nb : TileNature}
    {col col' : List T} (hnd : (col.map geta).Nodup)
    (h : swapByNatures geta na nb col = some col') :
    col.countP (fun x => decide (geta x = na)) = 1 ∧
    col.countP (fun x => decide (geta x = nb)) = 1 := by
  unfold swapByNatures at h
  simp only [Option.bind_eq_bind] at h
  rcases Option.bind_eq_some.mp h with ⟨ia, hpa, h⟩
  rcases Option.bind_eq_some.mp h with ⟨ib, hpb, h⟩
  exact ⟨le_antisymm (countP_le_one_of_nodup geta hnd na) (countP_pos_of_position hpa),
    le_antisymm (countP_le_one_of_nodup geta hnd nb) (countP_pos_of_position hpb)⟩

theorem uniqueNatures_of_inv_nodup {T : Type} (geta : T → TileNature) {a : Action}
    {lc rc lc' rc' : List T}
    (hl : (lc.map geta).Nodup) (hr : (rc.map geta).Nodup)
    (h : apply_inverse_action geta a lc rc = some (lc', rc')) :
    uniqueNatures geta a lc rc := by
  cases a with
  | swapTwoNatures na nb side =>
    simp only [apply_inverse_action] at h
    rcases onSide_some_elim h with ⟨c, hside, hfc, _⟩ | ⟨c, hside, hfc, _⟩ <;> subst hside
    · exact swapByNatures_counts geta hl hfc
    · exact swapByNatures_counts geta hr hfc
  | swapFirstAndLast side => trivial
  | swapTwoAdjacent top side => trivial
  | cycle times direction side => trivial

theorem applyForwardList_append {T : Type} (geta : T → TileNature) (xs ys : List Action)
    (lc rc : List T) :
    applyForwardList geta (xs ++ ys) lc rc =
      (applyForwardList geta xs lc rc).bind (fun p => applyForwardList geta ys p.1 p.2) := by
  induction xs generalizing lc rc with
  | nil => simp [applyForwardList]
  | cons a xs ih =>
    simp only [List.cons_append, applyForwardList]
    cases h : apply_action geta a lc rc with
    | none => simp
    | some p => simp [ih]

/-! ### Generator loop invariants -/

theorem draw_tiles_ok {rng : Nat → Nat} :
    ∀ (n : Nat) (pool : List Nat) (c : Nat) (ts : List TileNature) (c' : Nat),
      draw_tiles rng n pool c = (Except.ok ts, c') → pool.Nodup →
      ts.length = n ∧ ts.Nodup ∧ ∀ x ∈ ts, x.val ∈ pool := by
  intro n
  induction n with
  | zero =>
    intro pool c ts c' h hnd
    obtain ⟨h1, _⟩ := genm_pure_ok h
    subst h1
    simp
  | succ n ih =>
    intro pool c ts c' h hnd
    simp only [draw_tiles] at h
    obtain ⟨i, c1, hr, h⟩ := genm_bind_ok h
    obtain ⟨p, c2, hlift, h⟩ := genm_bind_ok h
    rcases p with ⟨x, pool'⟩
    obtain ⟨hsr, _⟩ := liftOpt_ok hlift
    obtain ⟨rest, c3, hrec, h⟩ := genm_bind_ok h
    obtain ⟨hts, _⟩ := genm_pure_ok h
    subst hts
    have hxni := (swapRemove_nodup hsr hnd).1
    have hnd' := (swapRemove_nodup hsr hnd).2
    obtain ⟨hlen, hnd'', hmem⟩ := ih pool' c2 rest c3 hrec hnd'
    refine ⟨by simp [hlen], ?_, ?_⟩
    · rw [List.nodup_cons]
      refine ⟨?_, hnd''⟩
      intro hmk
      exact hxni (by simpa using hmem _ hmk)
    · intro y hy
      rcases List.mem_cons.mp hy with rfl | hyr
      · simpa using swapRemove_mem hsr
      · exact swapRemove_subset hsr _ (hmem y hyr)

theorem gen_one_card_wf {rng : Nat → Nat} {tiles : List TileNature} (hnd : tiles.Nodup)
    {c c' : Nat} {a : Action} (h : gen_one_card rng tiles c = (Except.ok a, c')) :
    ActWF tiles a := by
  unfold gen_one_card at h
  obtain ⟨k, c1, hk, h⟩ := genm_bind_ok h
  by_cases h0 : k = 0
  · rw [if_pos h0] at h
    obtain ⟨side, c11, hside, h⟩ := genm_bind_ok h
    obtain ⟨hc, _⟩ := genm_pure_ok h
    subst hc
    trivial
  · rw [if_neg h0] at h
    by_cases h1 : k = 1
    · rw [if_pos h1] at h
      obtain ⟨top, c11, htop, h⟩ := genm_bind_ok h
      obtain ⟨side, c12, hside, h⟩ := genm_bind_ok h
      obtain ⟨hc, _⟩ := genm_pure_ok h
      subst hc
      have hb := genRange_ok htop
      show top + 1 < tiles.length
      omega
    · rw [if_neg h1] at h
      by_cases h2 : k = 2
      · rw [if_pos h2] at h
        obtain ⟨i, c11, hi, h⟩ := genm_bind_ok h
        obtain ⟨pa, c12, hlift, h⟩ := genm_bind_ok h
        obtain ⟨j, c13, hj, h⟩ := genm_bind_ok h
        obtain ⟨pb, c14, hlift2, h⟩ := genm_bind_ok h
        obtain ⟨side, c15, hside, h⟩ := genm_bind_ok h
        obtain ⟨hc, _⟩ := genm_pure_ok h
        subst hc
        obtain ⟨hsr, _⟩ := liftOpt_ok hlift
        obtain ⟨hsr2, _⟩ := liftOpt_ok hlift2
        rcases pa with ⟨na, pool'⟩
        rcases pb with ⟨nb, pool''⟩
        have hm2 : nb ∈ pool' := swapRemove_mem hsr2
        refine ⟨swapRemove_mem hsr, swapRemove_subset hsr _ hm2, ?_⟩
        have hnotin := (swapRemove_nodup hsr hnd).1
        intro hab
        have hab' : na = nb := hab
        exact hnotin (hab' ▸ hm2)
      · rw [if_neg h2] at h
        by_cases h3 : k = 3
        · rw [if_pos h3] at h
          obtain ⟨d, c11, hd, h⟩ := genm_bind_ok h
          by_cases hd0 : d = 0
          · rw [if_pos hd0] at h
            obtain ⟨dirv, c12, hdir, h⟩ := genm_bind_ok h
            obtain ⟨side, c13, hside, h⟩ := genm_bind_ok h
            obtain ⟨hc, _⟩ := genm_pure_ok h
            subst hc
            rfl
          · rw [if_neg hd0] at h
            by_cases hd1 : d = 1
            · rw [if_pos hd1] at h
              obtain ⟨dirv, c12, hdir, h⟩ := genm_bind_ok h
              obtain ⟨side, c13, hside, h⟩ := genm_bind_ok h
              obtain ⟨hc, _⟩ := genm_pure_ok h
              subst hc
              rfl
            · rw [if_neg hd1] at h
              obtain ⟨y, c12, hy, h⟩ := genm_bind_ok h
              simp [genPanic] at hy
        · rw [if_neg h3] at h
          simp [genPanic] at h

theorem gen_cards_ok {rng : Nat → Nat} {tiles : List TileNature} (hnd : tiles.Nodup) :
    ∀ (n : Nat) (c : Nat) (acts : List Action) (c' : Nat),
      gen_cards rng tiles n c = (Except.ok acts, c') →
      acts.length = n ∧ ∀ a ∈ acts, ActWF tiles a := by
  intro n
  induction n with
  | zero =>
    intro c acts c' h
    obtain ⟨h1, _⟩ := genm_pure_ok h
    subst h1
    simp
  | succ n ih =>
    intro c acts c' h
    simp only [gen_cards] at h
    obtain ⟨card, c1, hcard, h⟩ := genm_bind_ok h
    obtain ⟨rest, c2, hrest, h⟩ := genm_bind_ok h
    obtain ⟨hacts, _⟩ := genm_pure_ok h
    subst hacts
    obtain ⟨hlen, hwf⟩ := ih c1 rest c2 hrest
    refine ⟨by simp [hlen], ?_⟩
    intro a ha
    rcases List.mem_cons.mp ha with rfl | har
    · exact gen_one_card_wf hnd hcard
    · exact hwf a har

theorem apply_inverse_cards_ok {rng : Nat → Nat} :
    ∀ (n : Nat) (pool : List Action) (lc rc : List BuildingTileData) (c : Nat)
      (lc' rc' : List BuildingTileData) (c' : Nat),
      apply_inverse_cards rng n pool lc rc c = (Except.ok (lc', rc'), c') →
      (lc.map (fun x => x.nature)).Nodup → (rc.map (fun x => x.nature)).Nodup →
      (lc'.map (fun x => x.nature)).Perm (lc.map (fun x => x.nature)) ∧
      (rc'.map (fun x => x.nature)).Perm (rc.map (fun x => x.nature)) ∧
      ∃ seq : List Action, seq.length = n ∧
        (↑seq : Multiset Action) ≤ (↑pool : Multiset Action) ∧
        applyForwardList (fun x => x.nature) seq lc' rc' = some (lc, rc) := by
  intro n
  induction n with
  | zero =>
    intro pool lc rc c lc' rc' c' h _ _
    obtain ⟨h1, _⟩ := genm_pure_ok h
    injection h1 with e1 e2
    subst e1
    subst e2
    exact ⟨List.Perm.refl _, List.Perm.refl _, [], rfl, by simp, rfl⟩
  | succ n ih =>
    intro pool lc rc c lc' rc' c' h hndl hndr
    simp only [apply_inverse_cards] at h
    obtain ⟨i, c1, hi, h⟩ := genm_bind_ok h
    obtain ⟨pa, c2, hlift, h⟩ := genm_bind_ok h
    rcases pa with ⟨a, pool'⟩
    obtain ⟨hsr, _⟩ := liftOpt_ok hlift
    obtain ⟨pb, c3, hlift2, h⟩ := genm_bind_ok h
    rcases pb with ⟨lc1, rc1⟩
    obtain ⟨hinv, _⟩ := liftOpt_ok hlift2
    have hperm := apply_inverse_action_perm _ hinv
    have hndl1 : (lc1.map (fun x => x.nature)).Nodup :=
      ((hperm.1.map (fun x => x.nature)).nodup_iff).mpr hndl
    have hndr1 : (rc1.map (fun x => x.nature)).Nodup :=
      ((hperm.2.1.map (fun x => x.nature)).nodup_iff).mpr hndr
    obtain ⟨hp1, hp2, seq', hlen', hsub', hfwd'⟩ :=
      ih pool' lc1 rc1 c3 lc' rc' c' h hndl1 hndr1
    have hu := uniqueNatures_of_inv_nodup _ hndl hndr hinv
    have hstep := inv_then_fwd _ hu hinv
    have hpoolperm := swapRemove_perm hsr
    refine ⟨hp1.trans (hperm.1.map _), hp2.trans (hperm.2.1.map _),
      seq' ++ [a], by simp [hlen'], ?_, ?_⟩
    · have e1 : ((seq' ++ [a] : List Action) : Multiset Action) = ↑seq' + {a} := by
        rw [← Multiset.coe_singleton, Multiset.coe_add]
      have e2 : ((pool : List Action) : Multiset Action) = ↑pool' + {a} := by
        rw [Multiset.coe_eq_coe.mpr hpoolperm, ← Multiset.cons_coe, ← Multiset.singleton_add]
        exact add_comm _ _
      rw [e1, e2]
      exact add_le_add_right hsub' _
    · rw [applyForwardList_append, hfwd']
      simp [applyForwardList, hstep]

/-! ### Success of the transforms under valid parameters -/

theorem listSwap_isSome {T : Type} {l : List T} {i j : Nat} (hi : i < l.length)
    (hj : j < l.length) : (listSwap l i j).isSome := by
  rw [listSwap_eq l i j hi hj]
  rfl

theorem rotLeft_isSome {T : Type} {l : List T} {n : Nat} (hn : n ≤ l.length) :
    (rotLeft l n).isSome := by
  rw [rotLeft, if_pos hn]
  rfl

theorem rotRight_isSome {T : Type} {l : List T} {n : Nat} (hn : n ≤ l.length) :
    (rotRight l n).isSome := by
  rw [rotRight, if_pos hn]
  rfl

theorem swapByNatures_isSome {T : Type} (geta : T → TileNature) {na nb : TileNature}
    {col : List T}
    (ha : 0 < col.countP (fun x => decide (geta x = na)))
    (hb : 0 < col.countP (fun x => decide (geta x = nb))) :
    (swapByNatures geta na nb col).isSome := by
  obtain ⟨ia, hpa⟩ := Option.isSome_iff_exists.mp (position_isSome (List.countP_pos_iff.mp ha))
  obtain ⟨ib, hpb⟩ := Option.isSome_iff_exists.mp (position_isSome (List.countP_pos_iff.mp hb))
  unfold swapByNatures
  simp only [hpa, hpb, Option.bind_eq_bind, Option.some_bind]
  exact listSwap_isSome (position_some_lt hpa) (position_some_lt hpb)

theorem onSide_isSome {T : Type} {side : TileSide} {lc rc : List T}
    {f : List T → Option (List T)} (h : (f (sideCol side lc rc)).isSome) :
    (onSide side lc rc f).isSome := by
  cases side <;> simp only [onSide, sideCol] at h ⊢ <;> simpa using h

theorem sideCol_length {T : Type} {side : TileSide} {lc rc : List T} {n : Nat}
    (hl : lc.length = n) (hr : rc.length = n) : (sideCol side lc rc).length = n := by
  cases side <;> simpa [sideCol]

theorem apply_isSome_of_valid {T : Type} (geta : T → TileNature) {a : Action}
    {lc rc : List T} (hv : validParams geta a lc rc) :
    (apply_action geta a lc rc).isSome ∧ (apply_inverse_action geta a lc rc).isSome := by
  cases a with
  | swapFirstAndLast side =>
    have hlen : 0 < (sideCol side lc rc).length := List.length_pos.mpr hv
    constructor
    · simp only [apply_action]
      exact onSide_isSome (listSwap_isSome (by omega) (by omega))
    · simp only [apply_inverse_action]
      exact onSide_isSome (listSwap_isSome (by omega) (by omega))
  | swapTwoAdjacent top side =>
    have hv' : top + 1 < (sideCol side lc rc).length := hv
    constructor
    · simp only [apply_action]
      exact onSide_isSome (listSwap_isSome (by omega) (by omega))
    · simp only [apply_inverse_action]
      exact onSide_isSome (listSwap_isSome (by omega) (by omega))
  | swapTwoNatures na nb side =>
    obtain ⟨ha, hb⟩ := hv
    constructor
    · simp only [apply_action]
      exact onSide_isSome (swapByNatures_isSome geta (by omega) (by omega))
    · simp only [apply_inverse_action]
      exact onSide_isSome (swapByNatures_isSome geta (by omega) (by omega))
  | cycle times direction side =>
    obtain ⟨h0, h31, hle⟩ := hv
    have he : usizeOfI32 times = times.toNat := usizeOfI32_eq h0 h31
    cases direction with
    | up =>
      constructor
      · simp only [apply_action]
        exact onSide_isSome (by rw [he]; exact rotRight_isSome hle)
      · simp only [apply_inverse_action]
        exact onSide_isSome (by rw [he]; exact rotLeft_isSome hle)
    | down =>
      constructor
      · simp only [apply_action]
        exact onSide_isSome (by rw [he]; exact rotLeft_isSome hle)
      · simp only [apply_inverse_action]
        exact onSide_isSome (by rw [he]; exact rotRight_isSome hle)

/-! ### Inversion of a successful `start_match` run -/

theorem start_match_ok {rng : Nat → Nat} {tc cc ac ps c c' : Nat}
    {lc rc : List BuildingTileData} {cards : List Action}
    (h : start_match rng tc cc ac ps c = (Except.ok (lc, rc, cards), c')) :
    ∃ (ts : List TileNature) (c1 c2 : Nat),
      tc ≤ ps ∧ ac ≤ cc ∧
      draw_tiles rng tc (List.range ps) c = (Except.ok ts, c1) ∧
      gen_cards rng ts cc c1 = (Except.ok cards, c2) ∧
      apply_inverse_cards rng ac cards
        (ts.map (fun nature => BuildingTileData.mk none nature))
        (ts.map (fun nature => BuildingTileData.mk none nature)) c2
        = (Except.ok (lc, rc), c') := by
  unfold start_match at h
  obtain ⟨u1, c0, ha1, hA⟩ := genm_bind_ok h
  obtain ⟨ha1b, hc0⟩ := genAssert_ok ha1
  obtain ⟨ts, c1, hts, hB⟩ := genm_bind_ok hA
  obtain ⟨cardsv, c2, hcards, hC⟩ := genm_bind_ok hB
  obtain ⟨u2, c2b, ha2, hD⟩ := genm_bind_ok hC
  obtain ⟨ha2b, hc2b⟩ := genAssert_ok ha2
  obtain ⟨pr, c3, hinv, hE⟩ := genm_bind_ok hD
  rcases pr with ⟨plc, prc⟩
  obtain ⟨hfinal, hc3⟩ := genm_pure_ok hE
  injection hfinal with e1 e2
  injection e2 with e2 e3
  rw [hc0] at hts
  rw [hc2b] at hinv
  rw [← hc3] at hinv
  rw [← e1, ← e2] at hinv
  rw [← e3] at hcards hinv
  exact ⟨ts, c1, c2, ha1b, ha2b, hts, hcards, hinv⟩

theorem countP_eq_one_of_nodup_mem {T : Type} (geta : T → TileNature) {l : List T}
    (hnd : (l.map geta).Nodup) {na : TileNature} (hm : na ∈ l.map geta) :
    l.countP (fun x => decide (geta x = na)) = 1 := by
  obtain ⟨x, hx, hgx⟩ := List.mem_map.mp hm
  refine le_antisymm (countP_le_one_of_nodup geta hnd na) ?_
  rw [Nat.succ_le_iff, List.countP_pos_iff]
  exact ⟨x, hx, by simpa using hgx⟩

theorem onSide_sideCol {T : Type} {side : TileSide} {lc rc lc' rc' c : List T}
    {f : List T → Option (List T)} (hf : f (sideCol side lc rc) = some c)
    (h : onSide side lc rc f = some (lc', rc')) : sideCol side lc' rc' = c := by
  rcases onSide_some_elim h with ⟨d, hside, hfd, hp⟩ | ⟨d, hside, hfd, hp⟩
  · subst hside
    injection hp with h1 h2
    subst h1
    subst h2
    have hdc := hfd.symm.trans (show f lc = some c from hf)
    exact Option.some.inj hdc
  · subst hside
    injection hp with h1 h2
    subst h1
    subst h2
    have hdc := hfd.symm.trans (show f rc = some c from hf)
    exact Option.some.inj hdc

theorem build_map_nature (l : List TileNature) :
    (l.map (fun nature => BuildingTileData.mk none nature)).map (fun x => x.nature) = l := by
  induction l with
  | nil => rfl
  | cons a t iht =>
    simp only [List.map_cons]
    rw [iht]

/-! ### Lemmas about the match state machine -/

theorem iter_max_mem {l : List Nat} {m : Nat} (h : iter_max l = some m) : m ∈ l := by
  induction l generalizing m with
  | nil => simp [iter_max] at h
  | cons x t ih =>
    unfold iter_max at h
    cases ht : iter_max t with
    | none =>
      rw [ht] at h
      injection h with h
      subst h
      exact List.mem_cons_self x t
    | some mt =>
      rw [ht] at h
      injection h with h
      subst h
      rcases max_choice x mt with he | he <;> rw [he]
      · exact List.mem_cons_self x t
      · exact List.mem_cons_of_mem x (ih ht)

theorem iter_max_cons_isSome (x : Nat) (t : List Nat) : (iter_max (x :: t)).isSome := by
  unfold iter_max
  cases iter_max t <;> simp

theorem iter_max_ge {l : List Nat} {m : Nat} (h : iter_max l = some m) :
    ∀ x ∈ l, x ≤ m := by
  induction l generalizing m with
  | nil => simp
  | cons y t ih =>
    unfold iter_max at h
    cases ht : iter_max t with
    | none =>
      rw [ht] at h
      injection h with h
      subst h
      intro x hx
      rcases List.mem_cons.mp hx with rfl | hxt
      · exact le_refl x
      · exfalso
        cases t with
        | nil => simp at hxt
        | cons a u =>
          have hsome := iter_max_cons_isSome a u
          rw [ht] at hsome
          simp at hsome
    | some mt =>
      rw [ht] at h
      injection h with h
      subst h
      intro x hx
      rcases List.mem_cons.mp hx with rfl | hxt
      · exact le_max_left x mt
      · exact le_trans (ih ht x hxt) (le_max_right y mt)

/-- Effect of setting a previously-unused card's `used` field on the
multiset of used-order values. -/
theorem usedVals_set {cards : List CardData} {i : Nat} (h : i < cards.length)
    (hnone : (cards.get ⟨i, h⟩).used = none) (cd : CardData) {v : Nat}
    (hcd : cd.used = some v) :
    (((cards.set i cd).filterMap (fun c => c.used) : List Nat) : Multiset Nat) =
      ↑(cards.filterMap (fun c => c.used)) + {v} := by
  induction cards generalizing i with
  | nil => simp at h
  | cons x t ih =>
    cases i with
    | zero =>
      have hx : x.used = none := by simpa using hnone
      simp only [List.set_cons_zero, List.filterMap_cons, hx, hcd]
      rw [← Multiset.cons_coe, ← Multiset.singleton_add]
      exact add_comm _ _
    | succ n =>
      have hn : n < t.length := by simpa using h
      have hnone' : (t.get ⟨n, hn⟩).used = none := by simpa using hnone
      simp only [List.set_cons_succ, List.filterMap_cons]
      cases hxu : x.used with
      | none => exact ih hn hnone'
      | some w =>
        rw [← Multiset.cons_coe, ← Multiset.cons_coe, ih hn hnone', Multiset.cons_add]

theorem zip_all_iff_map_eq {l r : List TileData} (hlen : l.length = r.length) :
    ((l.zip r).all (fun p => decide (p.1.nature = p.2.nature)) = true) ↔
      l.map (fun x => x.nature) = r.map (fun x => x.nature) := by
  induction l generalizing r with
  | nil =>
    cases r with
    | nil => simp
    | cons b u => simp at hlen
  | cons a t ih =>
    cases r with
    | nil => simp at hlen
    | cons b u =>
      have hlen' : t.length = u.length := by simpa using hlen
      simp [List.all_cons, Bool.and_eq_true, decide_eq_true_iff, ih hlen']

theorem handle_input_hoverPrev {s : MatchStatePlaying} {i : Nat}
    (hhov : s.hovered_card = some i) :
    handle_input .hoverPrevious (.playing s) =
      some (.playing { s with hovered_card := some (if i = 0 then s.cards.length - 1 else i - 1) }) := by
  simp only [handle_input, hhov]
  rfl

theorem handle_input_hoverNext {s : MatchStatePlaying} {i : Nat}
    (hhov : s.hovered_card = some i) :
    handle_input .hoverNext (.playing s) =
      some (.playing { s with hovered_card := some (if i = s.cards.length - 1 then 0 else i + 1) }) := by
  simp only [handle_input, hhov]
  rfl

theorem handle_input_hover_none {s : MatchStatePlaying} (hhov : s.hovered_card = none) :
    handle_input .hoverPrevious (.playing s) = some (.playing s) ∧
    handle_input .hoverNext (.playing s) = some (.playing s) := by
  rcases s with ⟨l, r, cds, hov⟩
  simp only at hhov
  subst hhov
  constructor <;> rfl

theorem handle_input_activate_used {s : MatchStatePlaying} {i : Nat}
    (hhov : s.hovered_card = some i) (hi : i < s.cards.length)
    (hus : (s.cards.get ⟨i, hi⟩).used ≠ none) :
    handle_input .activate (.playing s) = some (.playing s) := by
  simp only [handle_input, hhov]
  rw [dif_pos hi, if_neg hus]

theorem handle_input_activate_unused {s : MatchStatePlaying} {i : Nat}
    (hhov : s.hovered_card = some i) (hi : i < s.cards.length)
    (hun : (s.cards.get ⟨i, hi⟩).used = none) {l' r' : List TileData}
    (happ : apply_action (fun x => x.nature) (s.cards.get ⟨i, hi⟩).action
      s.left_col s.right_col = some (l', r')) :
    handle_input .activate (.playing s) =
      some (.playing (activated_state s i hi l' r')) := by
  simp only [handle_input, hhov]
  rw [dif_pos hi, if_pos hun, happ]
  simp only [activated_state, hhov]

/-- Under the bookkeeping invariant, the next assigned used-order (one
more than the current maximum, or 0) equals the number of already-used
cards. -/
theorem next_used_order_eq {cards : List CardData}
    (hok : ((cards.filterMap (fun c => c.used) : List Nat) : Multiset Nat) =
      Multiset.range (cards.filterMap (fun c => c.used)).length) :
    next_used_order cards = (cards.filterMap (fun c => c.used)).length := by
  cases hvl : cards.filterMap (fun c => c.used) with
  | nil =>
    unfold next_used_order
    rw [hvl]
    simp [iter_max]
  | cons x rest =>
    have hperm : (cards.filterMap (fun c => c.used)).Perm
        (List.range (cards.filterMap (fun c => c.used)).length) :=
      Multiset.coe_eq_coe.mp hok
    have hlen_pos : 0 < (cards.filterMap (fun c => c.used)).length := by
      rw [hvl]
      simp
    cases him : iter_max (cards.filterMap (fun c => c.used)) with
    | none =>
      exfalso
      have hsome := iter_max_cons_isSome x rest
      rw [← hvl, him] at hsome
      simp at hsome
    | some m =>
      have hmem : m ∈ List.range (cards.filterMap (fun c => c.used)).length :=
        hperm.subset (iter_max_mem him)
      have hm_lt := List.mem_range.mp hmem
      have hmax : (cards.filterMap (fun c => c.used)).length - 1 ≤ m :=
        iter_max_ge him _ (hperm.symm.subset (List.mem_range.mpr (by omega)))
      have hlen_eq : (cards.filterMap (fun c => c.used)).length = (x :: rest).length := by
        rw [hvl]
      unfold next_used_order
      rw [him]
      show m + 1 = (x :: rest).length
      omega

theorem usedOk_allUnused {s : MatchStatePlaying} (h : allUnused s) : usedOk (.playing s) := by
  have hnil : usedVals s = [] := by
    unfold usedVals
    rw [List.filterMap_eq_nil_iff]
    exact h
  show ((usedVals s : List Nat) : Multiset Nat) = Multiset.range (usedVals s).length
  rw [hnil]
  rfl

/-- One input step preserves the used-order bookkeeping invariant. -/
theorem usedOk_step {inp : GameInput} {ms ms' : MatchState}
    (h : handle_input inp ms = some ms') (hok : usedOk ms) : usedOk ms' := by
  cases ms with
  | ready =>
    cases inp <;> (injection h with h; rw [← h]; trivial)
  | playing s =>
    cases inp with
    | hoverPrevious =>
      rw [show handle_input .hoverPrevious (.playing s) = some (.playing
        { s with hovered_card := s.hovered_card.map (fun hovered_card =>
          if hovered_card = 0 then s.cards.length - 1 else hovered_card - 1) }) from rfl] at h
      injection h with h
      rw [← h]
      exact hok
    | hoverNext =>
      rw [show handle_input .hoverNext (.playing s) = some (.playing
        { s with hovered_card := s.hovered_card.map (fun hovered_card =>
          if hovered_card = s.cards.length - 1 then 0 else hovered_card + 1) }) from rfl] at h
      injection h with h
      rw [← h]
      exact hok
    | activate =>
      cases hhov : s.hovered_card with
      | none =>
        simp only [handle_input, hhov] at h
        injection h with h
        rw [← h]
        exact hok
      | some i =>
        simp only [handle_input, hhov] at h
        by_cases hi : i < s.cards.length
        · rw [dif_pos hi] at h
          by_cases hun : (s.cards.get ⟨i, hi⟩).used = none
          · rw [if_pos hun] at h
            cases happ : apply_action (fun x => x.nature) (s.cards.get ⟨i, hi⟩).action
                s.left_col s.right_col with
            | none => rw [happ] at h; simp at h
            | some p =>
              rcases p with ⟨l', r'⟩
              rw [happ] at h
              injection h with h
              rw [← h]
              have hokp : ((List.filterMap (fun c => c.used) s.cards : List Nat) :
                  Multiset Nat) =
                  Multiset.range (List.filterMap (fun c => c.used) s.cards).length := hok
              have hset := usedVals_set hi hun
                { s.cards.get ⟨i, hi⟩ with used := some (next_used_order s.cards) } rfl
              have hnext := next_used_order_eq hokp
              show ((usedVals _ : List Nat) : Multiset Nat) = Multiset.range (usedVals _).length
              unfold usedVals
              simp only
              have hc := congrArg Multiset.card hset
              rw [Multiset.coe_card, Multiset.card_add, Multiset.coe_card,
                Multiset.card_singleton] at hc
              rw [hset, hc, hokp, hnext, Multiset.range_succ, ← Multiset.singleton_add]
              exact add_comm _ _
          · rw [if_neg hun] at h
            injection h with h
            rw [← h]
            exact hok
        · rw [dif_neg hi] at h
          simp at h

theorem usedOk_run : ∀ (inputs : List GameInput) (ms ms' : MatchState),
    usedOk ms → run_inputs inputs ms = some ms' → usedOk ms' := by
  intro inputs
  induction inputs with
  | nil =>
    intro ms ms' hok h
    injection h with h
    rw [← h]
    exact hok
  | cons inp rest ih =>
    intro ms ms' hok h
    unfold run_inputs at h
    cases hstep : handle_input inp ms with
    | none => rw [hstep] at h; simp at h
    | some ms1 =>
      rw [hstep] at h
      simp only [Option.some_bind] at h
      exact ih ms1 ms' (usedOk_step hstep hok) h

/-! ### Claim theorems -/

/-- C1: for every puzzle the generator returns (scrambled columns plus
dealt card list), some ordering of a sub-multiset of exactly
`applied_card_count` of the dealt cards, applied forward, takes the
returned columns to a state whose Left and Right symbol sequences agree
at every position. -/
theorem start_match_solvable (rng : Nat → Nat) (tc cc ac ps c c' : Nat)
    (lc rc : List BuildingTileData) (cards : List Action)
    (h : start_match rng tc cc ac ps c = (Except.ok (lc, rc, cards), c')) :
    ∃ (seq : List Action) (lc₀ rc₀ : List BuildingTileData),
      seq.length = ac ∧
      (↑seq : Multiset Action) ≤ (↑cards : Multiset Action) ∧
      applyForwardList (fun x => x.nature) seq lc rc = some (lc₀, rc₀) ∧
      lc₀.map (fun x => x.nature) = rc₀.map (fun x => x.nature) := by
  obtain ⟨ts, c1, c2, htcps, haccc, hts, hcards, hinv⟩ := start_match_ok h
  have hnodup_ts : ts.Nodup :=
    ((draw_tiles_ok tc (List.range ps) c ts c1 hts (List.nodup_range ps)).2).1
  have hmap := build_map_nature ts
  have hnd : ((ts.map (fun nature => BuildingTileData.mk none nature)).map
      (fun x => x.nature)).Nodup := by
    rw [hmap]
    exact hnodup_ts
  obtain ⟨hp1, hp2, seq, hlen, hsub, hfwd⟩ :=
    apply_inverse_cards_ok ac cards _ _ c2 lc rc c' hinv hnd hnd
  exact ⟨seq, _, _, hlen, hsub, hfwd, rfl⟩

/-- C1 witness at the hard-coded configuration (4, 5, 3, 8) with the
all-zeros random stream. -/
theorem start_match_solvable_witness :
    ∃ (seq : List Action) (lc₀ rc₀ : List BuildingTileData),
      seq.length = 3 ∧
      (↑seq : Multiset Action) ≤
        (↑[Action.swapFirstAndLast TileSide.left, Action.swapFirstAndLast TileSide.left,
            Action.swapFirstAndLast TileSide.left, Action.swapFirstAndLast TileSide.left,
            Action.swapFirstAndLast TileSide.left] : Multiset Action) ∧
      applyForwardList (fun x => x.nature)
        seq
        [BuildingTileData.mk none (TileNature.mk 5), BuildingTileData.mk none (TileNature.mk 7),
          BuildingTileData.mk none (TileNature.mk 6), BuildingTileData.mk none (TileNature.mk 0)]
        [BuildingTileData.mk none (TileNature.mk 0), BuildingTileData.mk none (TileNature.mk 7),
          BuildingTileData.mk none (TileNature.mk 6), BuildingTileData.mk none (TileNature.mk 5)]
        = some (lc₀, rc₀) ∧
      lc₀.map (fun x => x.nature) = rc₀.map (fun x => x.nature) :=
  start_match_solvable (fun _ => 0) 4 5 3 8 0 17 _ _ _ rfl

/-- C2 counterexample: with a symbol occurring twice, `SwapTwoNatures`
is not undone by the forward transform even though both referenced
symbols are present in the column, so `apply (applyInverse cols) ≠ cols`. -/
theorem apply_roundtrip_cex :
    (TileNature.mk 0 ∈ ([⟨0⟩, ⟨0⟩, ⟨1⟩] : List TileNature).map id ∧
      TileNature.mk 1 ∈ ([⟨0⟩, ⟨0⟩, ⟨1⟩] : List TileNature).map id) ∧
    apply_inverse_action id (.swapTwoNatures ⟨0⟩ ⟨1⟩ .left)
      ([⟨0⟩, ⟨0⟩, ⟨1⟩] : List TileNature) [] = some ([⟨1⟩, ⟨0⟩, ⟨0⟩], []) ∧
    apply_action id (.swapTwoNatures ⟨0⟩ ⟨1⟩ .left)
      ([⟨1⟩, ⟨0⟩, ⟨0⟩] : List TileNature) [] = some ([⟨0⟩, ⟨1⟩, ⟨0⟩], []) ∧
    ([⟨0⟩, ⟨1⟩, ⟨0⟩] : List TileNature) ≠ [⟨0⟩, ⟨0⟩, ⟨1⟩] := by
  decide

/-- C2 (amended): for every action with valid parameters — where
`SwapBySymbol` additionally requires each referenced symbol to occur
exactly once in the targeted column, `SwapEnds` a nonempty column, and
`Cycle` an in-bounds `times` — the inverse then the forward transform
restores both columns, and so does the forward then the inverse. -/
theorem apply_roundtrip {T : Type} (geta : T → TileNature) (a : Action) (lc rc : List T)
    (hv : validParams geta a lc rc) :
    (∃ lc' rc', apply_inverse_action geta a lc rc = some (lc', rc') ∧
      apply_action geta a lc' rc' = some (lc, rc)) ∧
    (∃ lc' rc', apply_action geta a lc rc = some (lc', rc') ∧
      apply_inverse_action geta a lc' rc' = some (lc, rc)) := by
  have hu : uniqueNatures geta a lc rc := by
    cases a with
    | swapTwoNatures na nb side => exact hv
    | swapFirstAndLast side => trivial
    | swapTwoAdjacent top side => trivial
    | cycle times direction side => trivial
  obtain ⟨h1, h2⟩ := apply_isSome_of_valid geta hv
  constructor
  · obtain ⟨p, hp⟩ := Option.isSome_iff_exists.mp h2
    rcases p with ⟨lc', rc'⟩
    exact ⟨lc', rc', hp, inv_then_fwd geta hu hp⟩
  · obtain ⟨p, hp⟩ := Option.isSome_iff_exists.mp h1
    rcases p with ⟨lc', rc'⟩
    exact ⟨lc', rc', hp, fwd_then_inv geta hu hp⟩

/-- C2 witness: a concrete roundtrip for `SwapTwoAdjacent 0` on a
two-entry column. -/
theorem apply_roundtrip_witness :
    validParams id (.swapTwoAdjacent 0 .left) ([⟨0⟩, ⟨1⟩] : List TileNature) [] ∧
    ((∃ lc' rc', apply_inverse_action id (.swapTwoAdjacent 0 .left)
        ([⟨0⟩, ⟨1⟩] : List TileNature) [] = some (lc', rc') ∧
      apply_action id (.swapTwoAdjacent 0 .left) lc' rc' = some ([⟨0⟩, ⟨1⟩], [])) ∧
    (∃ lc' rc', apply_action id (.swapTwoAdjacent 0 .left)
        ([⟨0⟩, ⟨1⟩] : List TileNature) [] = some (lc', rc') ∧
      apply_inverse_action id (.swapTwoAdjacent 0 .left) lc' rc' = some ([⟨0⟩, ⟨1⟩], []))) :=
  ⟨by decide, apply_roundtrip id (.swapTwoAdjacent 0 .left) [⟨0⟩, ⟨1⟩] [] (by decide)⟩

/-- C3 counterexample: the forward transform of `Cycle`/`Up` on
`[0,1,2,3]` produces `[3,0,1,2]` (rotation toward the last index), not
the `[1,2,3,0]` that rotation toward index 0 would give. -/
theorem cycle_direction_cex :
    apply_action id (.cycle 1 .up .left)
      ([⟨0⟩, ⟨1⟩, ⟨2⟩, ⟨3⟩] : List TileNature) [] = some ([⟨3⟩, ⟨0⟩, ⟨1⟩, ⟨2⟩], []) ∧
    ([⟨3⟩, ⟨0⟩, ⟨1⟩, ⟨2⟩] : List TileNature) ≠ [⟨1⟩, ⟨2⟩, ⟨3⟩, ⟨0⟩] := by
  decide

theorem rotate_getElem_shift {T : Type} (l : List T) (t i : Nat) (ht : t ≤ l.length)
    (hi : i < l.length) :
    (l.rotate (l.length - t)).get? ((i + t) % l.length) = l.get? i := by
  have hpos : 0 < l.length := by omega
  rw [List.get?_rotate (Nat.mod_lt _ hpos)]
  congr 1
  rw [Nat.mod_add_mod]
  have h1 : i + t + (l.length - t) = i + l.length := by omega
  rw [h1, Nat.add_mod_right]
  exact Nat.mod_eq_of_lt hi

theorem rotate_getElem_shift_of_le {T : Type} (l : List T) (t i : Nat) (ht : t ≤ l.length)
    (hi : i < l.length) :
    (l.rotate t).get? ((i + (l.length - t)) % l.length) = l.get? i := by
  have := rotate_getElem_shift l (l.length - t) i (by omega) hi
  rwa [Nat.sub_sub_self ht] at this

/-- C3 (amended): in the forward transform, `Cycle` with direction Up
rotates the targeted column toward the LAST index — the entry at index
`i` ends up at `(i + times) % len` — and direction Down rotates toward
index 0 — the entry at `i` ends up at `(i - times) mod len`, written
here as `(i + (len - times)) % len`. -/
theorem cycle_direction_spec {T : Type} (geta : T → TileNature) (t : Nat) (side : TileSide)
    (lc rc : List T) (h31 : (t : Int) < 2 ^ 31) (hlen : t ≤ (sideCol side lc rc).length) :
    ∃ lcu rcu lcd rcd : List T,
      apply_action geta (.cycle (t : Int) .up side) lc rc = some (lcu, rcu) ∧
      apply_action geta (.cycle (t : Int) .down side) lc rc = some (lcd, rcd) ∧
      ∀ i, i < (sideCol side lc rc).length →
        (sideCol side lcu rcu).get? ((i + t) % (sideCol side lc rc).length) =
          (sideCol side lc rc).get? i ∧
        (sideCol side lcd rcd).get?
            ((i + ((sideCol side lc rc).length - t)) % (sideCol side lc rc).length) =
          (sideCol side lc rc).get? i := by
  have he : usizeOfI32 (t : Int) = t := by
    rw [usizeOfI32_eq (Int.natCast_nonneg t) h31]
    simp
  cases side
  · refine ⟨lc.rotate (lc.length - t), rc, lc.rotate t, rc, ?_, ?_, ?_⟩
    · simp only [apply_action]
      apply onSide_left_intro
      rw [he, rotRight, if_pos (show t ≤ lc.length from hlen)]
    · simp only [apply_action]
      apply onSide_left_intro
      rw [he, rotLeft, if_pos (show t ≤ lc.length from hlen)]
    · intro i hi
      exact ⟨rotate_getElem_shift lc t i hlen hi, rotate_getElem_shift_of_le lc t i hlen hi⟩
  · refine ⟨lc, rc.rotate (rc.length - t), lc, rc.rotate t, ?_, ?_, ?_⟩
    · simp only [apply_action]
      apply onSide_right_intro
      rw [he, rotRight, if_pos (show t ≤ rc.length from hlen)]
    · simp only [apply_action]
      apply onSide_right_intro
      rw [he, rotLeft, if_pos (show t ≤ rc.length from hlen)]
    · intro i hi
      exact ⟨rotate_getElem_shift rc t i hlen hi, rotate_getElem_shift_of_le rc t i hlen hi⟩

/-- C3 witness at `times = 1` on a four-entry left column. -/
theorem cycle_direction_spec_witness :
    ∃ lcu rcu lcd rcd : List TileNature,
      apply_action id (.cycle ((1 : Nat) : Int) .up .left)
        ([⟨0⟩, ⟨1⟩, ⟨2⟩, ⟨3⟩] : List TileNature) [] = some (lcu, rcu) ∧
      apply_action id (.cycle ((1 : Nat) : Int) .down .left)
        ([⟨0⟩, ⟨1⟩, ⟨2⟩, ⟨3⟩] : List TileNature) [] = some (lcd, rcd) ∧
      ∀ i, i < (sideCol .left ([⟨0⟩, ⟨1⟩, ⟨2⟩, ⟨3⟩] : List TileNature) []).length →
        (sideCol .left lcu rcu).get?
            ((i + 1) % (sideCol .left ([⟨0⟩, ⟨1⟩, ⟨2⟩, ⟨3⟩] : List TileNature) []).length) =
          (sideCol .left ([⟨0⟩, ⟨1⟩, ⟨2⟩, ⟨3⟩] : List TileNature) []).get? i ∧
        (sideCol .left lcd rcd).get?
            ((i + ((sideCol .left ([⟨0⟩, ⟨1⟩, ⟨2⟩, ⟨3⟩] : List TileNature) []).length - 1)) %
              (sideCol .left ([⟨0⟩, ⟨1⟩, ⟨2⟩, ⟨3⟩] : List TileNature) []).length) =
          (sideCol .left ([⟨0⟩, ⟨1⟩, ⟨2⟩, ⟨3⟩] : List TileNature) []).get? i :=
  cycle_direction_spec id 1 .left [⟨0⟩, ⟨1⟩, ⟨2⟩, ⟨3⟩] [] (by decide) (by decide)

/-- C4 (amended): `tiles_count ≤ pool size` is asserted before any
random draw — on its violation generation aborts with a configuration
error having consumed zero draws, for every random stream.  The
`applied_card_count ≤ card_count` assertion, however, only runs after
the tile symbols and card actions have been drawn: its violation is
reported with random state already consumed (8 draws in the exhibited
run).  And `tiles_count < 2` is not checked at all: a run with
`tiles_count = 1` completes successfully. -/
theorem config_checks_order :
    (∀ (rng : Nat → Nat) (tc cc ac ps c : Nat), ps < tc →
        start_match rng tc cc ac ps c = (Except.error GenErr.config, c)) ∧
    start_match (fun _ => 0) 4 2 3 8 0 = (Except.error GenErr.config, 8) ∧
    start_match (fun _ => 0) 1 5 3 8 0 =
      (Except.ok ([BuildingTileData.mk none (TileNature.mk 0)],
        [BuildingTileData.mk none (TileNature.mk 0)],
        [Action.swapFirstAndLast TileSide.left, Action.swapFirstAndLast TileSide.left,
          Action.swapFirstAndLast TileSide.left, Action.swapFirstAndLast TileSide.left,
          Action.swapFirstAndLast TileSide.left]), 14) := by
  refine ⟨?_, rfl, rfl⟩
  intro rng tc cc ac ps c hlt
  have hA : genAssert (tc ≤ ps) c = (Except.error GenErr.config, c) := by
    unfold genAssert
    rw [if_neg (by omega)]
  show (genAssert (tc ≤ ps) >>= fun _ => _) c = (Except.error GenErr.config, c)
  rw [genm_bind_apply, hA]

/-- C4 counterexample: with `applied_card_count = 3 > card_count = 2`
the configuration error is raised only after 8 random draws have been
consumed, and with `tiles_count = 1 < 2` the generator does not fail at
all. -/
theorem config_checks_cex :
    (start_match (fun _ => 0) 4 2 3 8 0 = (Except.error GenErr.config, 8) ∧ (8 : Nat) ≠ 0) ∧
    (start_match (fun _ => 0) 1 5 3 8 0).1 =
      Except.ok ([BuildingTileData.mk none (TileNature.mk 0)],
        [BuildingTileData.mk none (TileNature.mk 0)],
        [Action.swapFirstAndLast TileSide.left, Action.swapFirstAndLast TileSide.left,
          Action.swapFirstAndLast TileSide.left, Action.swapFirstAndLast TileSide.left,
          Action.swapFirstAndLast TileSide.left]) :=
  ⟨⟨rfl, by decide⟩, rfl⟩

/-- C4 witness: the eager `tiles_count ≤ pool size` check fires with no
random state consumed. -/
theorem config_checks_order_witness :
    start_match (fun _ => 0) 9 5 3 8 0 = (Except.error GenErr.config, 0) :=
  config_checks_order.1 (fun _ => 0) 9 5 3 8 0 (by omega)

/-- C5: a successful application of any action (forward or inverse)
preserves each column as a multiset of entries — hence the multiset of
symbols — and leaves the column opposite the action's side unchanged. -/
theorem apply_preserves_multiset {T : Type} (geta : T → TileNature) (a : Action)
    (lc rc lc' rc' : List T)
    (h : apply_action geta a lc rc = some (lc', rc') ∨
        apply_inverse_action geta a lc rc = some (lc', rc')) :
    ((lc' : Multiset T) = (lc : Multiset T) ∧ (rc' : Multiset T) = (rc : Multiset T)) ∧
    (action_side a = .left → rc' = rc) ∧ (action_side a = .right → lc' = lc) := by
  rcases h with h | h
  · obtain ⟨h1, h2, h3, h4⟩ := apply_action_perm geta h
    exact ⟨⟨Multiset.coe_eq_coe.mpr h1, Multiset.coe_eq_coe.mpr h2⟩, h3, h4⟩
  · obtain ⟨h1, h2, h3, h4⟩ := apply_inverse_action_perm geta h
    exact ⟨⟨Multiset.coe_eq_coe.mpr h1, Multiset.coe_eq_coe.mpr h2⟩, h3, h4⟩

/-- C5 witness on `SwapTwoAdjacent 0` over a two-entry left column. -/
theorem apply_preserves_multiset_witness :
    ((([⟨1⟩, ⟨0⟩] : List TileNature) : Multiset TileNature) =
        (([⟨0⟩, ⟨1⟩] : List TileNature) : Multiset TileNature) ∧
      (([] : List TileNature) : Multiset TileNature) =
        (([] : List TileNature) : Multiset TileNature)) ∧
    (action_side (.swapTwoAdjacent 0 .left) = .left → ([] : List TileNature) = []) ∧
    (action_side (.swapTwoAdjacent 0 .left) = .right →
      ([⟨1⟩, ⟨0⟩] : List TileNature) = [⟨0⟩, ⟨1⟩]) :=
  apply_preserves_multiset id (.swapTwoAdjacent 0 .left) [⟨0⟩, ⟨1⟩] [] [⟨1⟩, ⟨0⟩] []
    (Or.inl (by decide))

/-- C6: for every puzzle the generator returns, the Left and Right
columns carry the same multiset of symbols and no symbol repeats within
a column. -/
theorem start_match_columns_perm (rng : Nat → Nat) (tc cc ac ps c c' : Nat)
    (lc rc : List BuildingTileData) (cards : List Action)
    (h : start_match rng tc cc ac ps c = (Except.ok (lc, rc, cards), c')) :
    ((lc.map (fun x => x.nature) : List TileNature) : Multiset TileNature) =
      ((rc.map (fun x => x.nature) : List TileNature) : Multiset TileNature) ∧
    (lc.map (fun x => x.nature)).Nodup ∧ (rc.map (fun x => x.nature)).Nodup := by
  obtain ⟨ts, c1, c2, htcps, haccc, hts, hcards, hinv⟩ := start_match_ok h
  have hnodup_ts : ts.Nodup :=
    ((draw_tiles_ok tc (List.range ps) c ts c1 hts (List.nodup_range ps)).2).1
  have hmap := build_map_nature ts
  have hnd : ((ts.map (fun nature => BuildingTileData.mk none nature)).map
      (fun x => x.nature)).Nodup := by
    rw [hmap]
    exact hnodup_ts
  obtain ⟨hp1, hp2, _⟩ := apply_inverse_cards_ok ac cards _ _ c2 lc rc c' hinv hnd hnd
  rw [hmap] at hp1 hp2
  exact ⟨Multiset.coe_eq_coe.mpr (hp1.trans hp2.symm), hp1.nodup_iff.mpr hnodup_ts,
    hp2.nodup_iff.mpr hnodup_ts⟩

/-- C6 witness at the hard-coded configuration with the all-zeros
stream. -/
theorem start_match_columns_perm_witness :
    ((([BuildingTileData.mk none (TileNature.mk 5), BuildingTileData.mk none (TileNature.mk 7),
        BuildingTileData.mk none (TileNature.mk 6),
        BuildingTileData.mk none (TileNature.mk 0)].map (fun x => x.nature) :
          List TileNature) : Multiset TileNature) =
      (([BuildingTileData.mk none (TileNature.mk 0), BuildingTileData.mk none (TileNature.mk 7),
        BuildingTileData.mk none (TileNature.mk 6),
        BuildingTileData.mk none (TileNature.mk 5)].map (fun x => x.nature) :
          List TileNature) : Multiset TileNature)) ∧
    ([BuildingTileData.mk none (TileNature.mk 5), BuildingTileData.mk none (TileNature.mk 7),
      BuildingTileData.mk none (TileNature.mk 6),
      BuildingTileData.mk none (TileNature.mk 0)].map (fun x => x.nature)).Nodup ∧
    ([BuildingTileData.mk none (TileNature.mk 0), BuildingTileData.mk none (TileNature.mk 7),
      BuildingTileData.mk none (TileNature.mk 6),
      BuildingTileData.mk none (TileNature.mk 5)].map (fun x => x.nature)).Nodup :=
  start_match_columns_perm (fun _ => 0) 4 5 3 8 0 17 _ _ _ rfl

/-- C10: with a valid tile count (at least 2), every card the generator
deals satisfies the engine preconditions relative to the returned
columns — `SwapTwoAdjacent` top in `[0, tiles_count - 2]`,
`SwapTwoNatures` on two distinct symbols present in both columns,
`Cycle` with `times = 1` — and both transforms succeed (no panic
branch is reachable) on those columns. -/
theorem generated_actions_valid (rng : Nat → Nat) (tc cc ac ps c c' : Nat)
    (lc rc : List BuildingTileData) (cards : List Action) (h2tc : 2 ≤ tc)
    (h : start_match rng tc cc ac ps c = (Except.ok (lc, rc, cards), c')) :
    lc.length = tc ∧ rc.length = tc ∧
    ∀ a ∈ cards, enginePre tc (fun x => x.nature) a lc rc ∧
      (apply_action (fun x => x.nature) a lc rc).isSome ∧
      (apply_inverse_action (fun x => x.nature) a lc rc).isSome := by
  obtain ⟨ts, c1, c2, htcps, haccc, hts, hcards, hinv⟩ := start_match_ok h
  obtain ⟨hts_len, hnodup_ts, _⟩ :=
    draw_tiles_ok tc (List.range ps) c ts c1 hts (List.nodup_range ps)
  have hmap := build_map_nature ts
  have hnd : ((ts.map (fun nature => BuildingTileData.mk none nature)).map
      (fun x => x.nature)).Nodup := by
    rw [hmap]
    exact hnodup_ts
  obtain ⟨hp1, hp2, _⟩ := apply_inverse_cards_ok ac cards _ _ c2 lc rc c' hinv hnd hnd
  rw [hmap] at hp1 hp2
  have hwf := (gen_cards_ok hnodup_ts cc c1 cards c2 hcards).2
  have hlc_len : lc.length = tc := by
    have hlen := hp1.length_eq
    rw [List.length_map, hts_len] at hlen
    exact hlen
  have hrc_len : rc.length = tc := by
    have hlen := hp2.length_eq
    rw [List.length_map, hts_len] at hlen
    exact hlen
  have hndl : (lc.map (fun x => x.nature)).Nodup := hp1.nodup_iff.mpr hnodup_ts
  have hndr : (rc.map (fun x => x.nature)).Nodup := hp2.nodup_iff.mpr hnodup_ts
  refine ⟨hlc_len, hrc_len, ?_⟩
  intro a ha
  have hwfa := hwf a ha
  have hpre : enginePre tc (fun x => x.nature) a lc rc := by
    cases a with
    | swapFirstAndLast side => trivial
    | swapTwoAdjacent top side =>
      have htop : top + 1 < ts.length := hwfa
      show top + 2 ≤ tc
      omega
    | swapTwoNatures na nb side =>
      obtain ⟨hna, hnb, hne⟩ := hwfa
      exact ⟨hne, hp1.mem_iff.mpr hna, hp1.mem_iff.mpr hnb,
        hp2.mem_iff.mpr hna, hp2.mem_iff.mpr hnb⟩
    | cycle t dir side => exact hwfa
  have hside_len : (sideCol (action_side a) lc rc).length = tc :=
    sideCol_length hlc_len hrc_len
  have hvalid : validParams (fun x => x.nature) a lc rc := by
    cases a with
    | swapFirstAndLast side =>
      show sideCol side lc rc ≠ []
      have hl : (sideCol side lc rc).length = tc := sideCol_length hlc_len hrc_len
      intro hnil
      rw [hnil] at hl
      simp at hl
      omega
    | swapTwoAdjacent top side =>
      show top + 1 < (sideCol side lc rc).length
      rw [sideCol_length hlc_len hrc_len]
      have h2 : top + 2 ≤ tc := hpre
      omega
    | swapTwoNatures na nb side =>
      obtain ⟨hne, hmla, hmlb, hmra, hmrb⟩ := hpre
      cases side
      · exact ⟨countP_eq_one_of_nodup_mem _ hndl hmla,
          countP_eq_one_of_nodup_mem _ hndl hmlb⟩
      · exact ⟨countP_eq_one_of_nodup_mem _ hndr hmra,
          countP_eq_one_of_nodup_mem _ hndr hmrb⟩
    | cycle t dir side =>
      have ht1 : t = 1 := hpre
      subst ht1
      refine ⟨by decide, by decide, ?_⟩
      rw [sideCol_length hlc_len hrc_len]
      show (1 : Int).toNat ≤ tc
      omega
  obtain ⟨hs1, hs2⟩ := apply_isSome_of_valid _ hvalid
  exact ⟨hpre, hs1, hs2⟩

/-- C10 witness at the hard-coded configuration with the all-zeros
stream. -/
theorem generated_actions_valid_witness :
    ([BuildingTileData.mk none (TileNature.mk 5), BuildingTileData.mk none (TileNature.mk 7),
      BuildingTileData.mk none (TileNature.mk 6),
      BuildingTileData.mk none (TileNature.mk 0)] : List BuildingTileData).length = 4 ∧
    ([BuildingTileData.mk none (TileNature.mk 0), BuildingTileData.mk none (TileNature.mk 7),
      BuildingTileData.mk none (TileNature.mk 6),
      BuildingTileData.mk none (TileNature.mk 5)] : List BuildingTileData).length = 4 ∧
    ∀ a ∈ [Action.swapFirstAndLast TileSide.left, Action.swapFirstAndLast TileSide.left,
        Action.swapFirstAndLast TileSide.left, Action.swapFirstAndLast TileSide.left,
        Action.swapFirstAndLast TileSide.left],
      enginePre 4 (fun x => x.nature) a
        [BuildingTileData.mk none (TileNature.mk 5), BuildingTileData.mk none (TileNature.mk 7),
          BuildingTileData.mk none (TileNature.mk 6), BuildingTileData.mk none (TileNature.mk 0)]
        [BuildingTileData.mk none (TileNature.mk 0), BuildingTileData.mk none (TileNature.mk 7),
          BuildingTileData.mk none (TileNature.mk 6),
          BuildingTileData.mk none (TileNature.mk 5)] ∧
      (apply_action (fun x => x.nature) a
        [BuildingTileData.mk none (TileNature.mk 5), BuildingTileData.mk none (TileNature.mk 7),
          BuildingTileData.mk none (TileNature.mk 6), BuildingTileData.mk none (TileNature.mk 0)]
        [BuildingTileData.mk none (TileNature.mk 0), BuildingTileData.mk none (TileNature.mk 7),
          BuildingTileData.mk none (TileNature.mk 6),
          BuildingTileData.mk none (TileNature.mk 5)]).isSome ∧
      (apply_inverse_action (fun x => x.nature) a
        [BuildingTileData.mk none (TileNature.mk 5), BuildingTileData.mk none (TileNature.mk 7),
          BuildingTileData.mk none (TileNature.mk 6), BuildingTileData.mk none (TileNature.mk 0)]
        [BuildingTileData.mk none (TileNature.mk 0), BuildingTileData.mk none (TileNature.mk 7),
          BuildingTileData.mk none (TileNature.mk 6),
          BuildingTileData.mk none (TileNature.mk 5)]).isSome :=
  generated_actions_valid (fun _ => 0) 4 5 3 8 0 17 _ _ _ (by omega) rfl

/-- C7: used-order bookkeeping: activating an already-used card leaves
the Playing state entirely unchanged; under the bookkeeping invariant
the value assigned next (`1 + max existing`, or 0 for the first) equals
the number of already-used cards; and after any input sequence from a
fresh hand the assigned used-order values are exactly `0, 1, …, k-1`
(as a multiset, `Multiset.range k`), so in activation order they read
`0, 1, 2, …`. -/
theorem used_order_spec :
    (∀ (s : MatchStatePlaying) (i : Nat), s.hovered_card = some i →
      ∀ (hi : i < s.cards.length), (s.cards.get ⟨i, hi⟩).used ≠ none →
        handle_input .activate (.playing s) = some (.playing s)) ∧
    (∀ s : MatchStatePlaying, usedOk (.playing s) →
      next_used_order s.cards = (usedVals s).length) ∧
    (∀ (s : MatchStatePlaying) (inputs : List GameInput) (ms' : MatchState),
      allUnused s → run_inputs inputs (.playing s) = some ms' → usedOk ms') := by
  refine ⟨?_, ?_, ?_⟩
  · intro s i hhov hi hus
    exact handle_input_activate_used hhov hi hus
  · intro s hok
    exact next_used_order_eq hok
  · intro s inputs ms' hall hrun
    exact usedOk_run inputs _ ms' (usedOk_allUnused hall) hrun

/-- C7 witness: a used card is immune to re-activation; the next order
on a one-used-card hand is 1; a fresh one-card hand satisfies the
invariant after an empty input sequence. -/
theorem used_order_spec_witness :
    handle_input .activate
        (.playing (MatchStatePlaying.mk [] []
          [CardData.mk (Action.swapFirstAndLast TileSide.left) (some 0) 0] (some 0))) =
      some (.playing (MatchStatePlaying.mk [] []
        [CardData.mk (Action.swapFirstAndLast TileSide.left) (some 0) 0] (some 0))) ∧
    next_used_order [CardData.mk (Action.swapFirstAndLast TileSide.left) (some 0) 0] =
      (usedVals (MatchStatePlaying.mk [] []
        [CardData.mk (Action.swapFirstAndLast TileSide.left) (some 0) 0] (some 0))).length ∧
    usedOk (.playing (MatchStatePlaying.mk [] []
      [CardData.mk (Action.swapFirstAndLast TileSide.left) none 0] (some 0))) :=
  ⟨used_order_spec.1 (MatchStatePlaying.mk [] []
      [CardData.mk (Action.swapFirstAndLast TileSide.left) (some 0) 0] (some 0))
      0 rfl (by decide) (by decide),
    used_order_spec.2.1 (MatchStatePlaying.mk [] []
      [CardData.mk (Action.swapFirstAndLast TileSide.left) (some 0) 0] (some 0)) (by decide),
    used_order_spec.2.2 (MatchStatePlaying.mk [] []
      [CardData.mk (Action.swapFirstAndLast TileSide.left) none 0] (some 0)) []
      (.playing (MatchStatePlaying.mk [] []
        [CardData.mk (Action.swapFirstAndLast TileSide.left) none 0] (some 0)))
      (by decide) rfl⟩

/-- C8: an Activate that applies an unused card's action keeps the
match in the Playing state (the `MatchState` type has no Lose
alternative), and the victory check on the updated state succeeds
exactly when the two new columns agree on symbols at every position
(expressed as equality of their symbol sequences). -/
theorem activate_win_condition (s : MatchStatePlaying) (i : Nat)
    (hhov : s.hovered_card = some i) (hi : i < s.cards.length)
    (hun : (s.cards.get ⟨i, hi⟩).used = none) (l' r' : List TileData)
    (happ : apply_action (fun x => x.nature) (s.cards.get ⟨i, hi⟩).action s.left_col
      s.right_col = some (l', r'))
    (hlen : s.left_col.length = s.right_col.length) :
    ∃ s' : MatchStatePlaying,
      handle_input .activate (.playing s) = some (.playing s') ∧
      s'.left_col = l' ∧ s'.right_col = r' ∧
      (natures_in_the_columns_match s' = true ↔
        l'.map (fun x => x.nature) = r'.map (fun x => x.nature)) := by
  refine ⟨activated_state s i hi l' r',
    handle_input_activate_unused hhov hi hun happ, rfl, rfl, ?_⟩
  have hl : l'.length = r'.length := by
    have hp := apply_action_perm (fun x : TileData => x.nature) happ
    have h1 := hp.1.length_eq
    have h2 := hp.2.1.length_eq
    omega
  show ((l'.zip r').all (fun p => decide (p.1.nature = p.2.nature)) = true) ↔ _
  exact zip_all_iff_map_eq hl

/-- C8 witness: activating a `SwapEnds` card on a two-tile board. -/
theorem activate_win_condition_witness :
    ∃ s' : MatchStatePlaying,
      handle_input .activate
          (.playing (MatchStatePlaying.mk
            [TileData.mk 0 (TileNature.mk 0), TileData.mk 1 (TileNature.mk 1)]
            [TileData.mk 2 (TileNature.mk 1), TileData.mk 3 (TileNature.mk 0)]
            [CardData.mk (Action.swapFirstAndLast TileSide.left) none 4] (some 0))) =
        some (.playing s') ∧
      s'.left_col = [TileData.mk 1 (TileNature.mk 1), TileData.mk 0 (TileNature.mk 0)] ∧
      s'.right_col = [TileData.mk 2 (TileNature.mk 1), TileData.mk 3 (TileNature.mk 0)] ∧
      (natures_in_the_columns_match s' = true ↔
        ([TileData.mk 1 (TileNature.mk 1), TileData.mk 0 (TileNature.mk 0)].map
            (fun x => x.nature) =
          [TileData.mk 2 (TileNature.mk 1), TileData.mk 3 (TileNature.mk 0)].map
            (fun x => x.nature))) :=
  activate_win_condition _ 0 rfl (by decide) (by decide) _ _ (by decide) (by decide)

/-- C9: hover wraparound: with the cursor on card `i` of `n`,
HoverPrevious moves it to `(i - 1 + n) mod n` (written `(i + n - 1) % n`
in truncated arithmetic) and HoverNext to `(i + 1) mod n`; with no
hovered card, both inputs leave the state unchanged. -/
theorem hover_wraparound (s : MatchStatePlaying) :
    (∀ i, s.hovered_card = some i → i < s.cards.length →
      handle_input .hoverPrevious (.playing s) =
        some (.playing { s with hovered_card := some ((i + s.cards.length - 1) % s.cards.length) }) ∧
      handle_input .hoverNext (.playing s) =
        some (.playing { s with hovered_card := some ((i + 1) % s.cards.length) })) ∧
    (s.hovered_card = none →
      handle_input .hoverPrevious (.playing s) = some (.playing s) ∧
      handle_input .hoverNext (.playing s) = some (.playing s)) := by
  constructor
  · intro i hhov hi
    have hn : 0 < s.cards.length := by omega
    constructor
    · rw [handle_input_hoverPrev hhov]
      have hv : (if i = 0 then s.cards.length - 1 else i - 1) =
          (i + s.cards.length - 1) % s.cards.length := by
        by_cases h0 : i = 0
        · subst h0
          rw [if_pos rfl, Nat.zero_add]
          exact (Nat.mod_eq_of_lt (by omega)).symm
        · rw [if_neg h0]
          have he : i + s.cards.length - 1 = (i - 1) + s.cards.length := by omega
          rw [he, Nat.add_mod_right]
          exact (Nat.mod_eq_of_lt (by omega)).symm
      rw [hv]
    · rw [handle_input_hoverNext hhov]
      have hv : (if i = s.cards.length - 1 then 0 else i + 1) =
          (i + 1) % s.cards.length := by
        by_cases h0 : i = s.cards.length - 1
        · subst h0
          rw [if_pos rfl]
          have he : s.cards.length - 1 + 1 = s.cards.length := by omega
          rw [he, Nat.mod_self]
        · rw [if_neg h0]
          exact (Nat.mod_eq_of_lt (by omega)).symm
      rw [hv]
  · exact handle_input_hover_none

/-- C9 witness: wrap from index 0 back to 1 and from 0 forward to 1 on
a two-card hand. -/
theorem hover_wraparound_witness :
    handle_input .hoverPrevious
        (.playing (MatchStatePlaying.mk [] []
          [CardData.mk (Action.swapFirstAndLast TileSide.left) none 0,
            CardData.mk (Action.swapFirstAndLast TileSide.right) none 1] (some 0))) =
      some (.playing (MatchStatePlaying.mk [] []
        [CardData.mk (Action.swapFirstAndLast TileSide.left) none 0,
          CardData.mk (Action.swapFirstAndLast TileSide.right) none 1]
        (some ((0 + 2 - 1) % 2)))) ∧
    handle_input .hoverNext
        (.playing (MatchStatePlaying.mk [] []
          [CardData.mk (Action.swapFirstAndLast TileSide.left) none 0,
            CardData.mk (Action.swapFirstAndLast TileSide.right) none 1] (some 0))) =
      some (.playing (MatchStatePlaying.mk [] []
        [CardData.mk (Action.swapFirstAndLast TileSide.left) none 0,
          CardData.mk (Action.swapFirstAndLast TileSide.right) none 1]
        (some ((0 + 1) % 2)))) :=
  (hover_wraparound _).1 0 rfl (by decide)

end Game
